import Mathlib

/-!
# Verification of the Meeting_Vault extraction pipeline

A shallow embedding, in Lean 4, of the deterministic core of the
`Meeting_Vault` extraction pipeline
(`backend/app/services/hybrid_extraction.py`,
`backend/app/services/extraction_graph.py`, `backend/app/api/upload.py`),
together with theorems settling the specification claims about it.

LLM calls are modelled as oracle inputs: each stage that awaits a completion
call takes the call's outcome as an explicit argument, so the deterministic
glue around those calls (parsing, chunking, merging, deduplication,
validation bookkeeping, finalization) is embedded exactly.

Where Python iterates over a `set` (whose iteration order is unspecified),
the embedding fixes first-insertion order; no theorem below depends on the
order chosen, only on membership.
-/

namespace MeetingVault

/-! ## Python string primitives (ASCII fragment of Python `str` / `re`) -/

/-- Python `\s` on the ASCII range. -/
def isPySpace (c : Char) : Bool :=
  c == ' ' || c == '\t' || c == '\n' || c == '\r' || c == '\x0b' || c == '\x0c'

/-- Python `\d` on the ASCII range. -/
def isPyDigit (c : Char) : Bool := '0' ≤ c && c ≤ '9'

/-- Python `\w` (regex word character) on the ASCII range. -/
def isWordChar (c : Char) : Bool :=
  ('a' ≤ c && c ≤ 'z') || ('A' ≤ c && c ≤ 'Z') || isPyDigit c || c == '_'

/-- ASCII lower-casing, as used for `.lower()` comparisons on platform names. -/
def toLowerCh (c : Char) : Char :=
  if 'A' ≤ c && c ≤ 'Z' then Char.ofNat (c.toNat + 32) else c

def pyStripChars (cs : List Char) : List Char :=
  ((cs.dropWhile isPySpace).reverse.dropWhile isPySpace).reverse

/-- Python `str.strip()`. -/
def pyStrip (s : String) : String := String.mk (pyStripChars s.data)

def lowerStr (s : String) : String := String.mk (s.data.map toLowerCh)

/-- Python truthiness of an optional string (`None` and `""` are falsy). -/
def pyTruthyStr : Option String → Bool
  | none => false
  | some s => !s.isEmpty

/-- Python truthiness of an optional number (`None` and `0` are falsy). -/
def pyTruthyNum : Option Rat → Bool
  | none => false
  | some q => q != 0

/-! ## Data model (`hybrid_extraction.py`, pydantic models) -/

/-- `CleanedMessage`: a parsed message from the transcript. -/
structure CleanedMessage where
  id : Nat
  sender : String
  message : String
  timestamp : Option String := none
deriving Repr, DecidableEq

/-- `ExtractedService`: an offer or request extracted from the transcript. -/
structure ExtractedService where
  type : String
  description : String
  contact_name : String
  links : List String := []
deriving Repr, DecidableEq

/-- `BuyBox`: structured buy box criteria. Prices are modelled as rationals. -/
structure BuyBox where
  min_price : Option Rat := none
  max_price : Option Rat := none
  assets : List String := []
  markets : List String := []
  strategy : List String := []
  description : Option String := none
deriving Repr, DecidableEq

/-- `SocialLink`: a social media profile link. -/
structure SocialLink where
  platform : String
  url : String
deriving Repr, DecidableEq

/-- `ExtractedProfile`: rich contact profile information. -/
structure ExtractedProfile where
  name : String
  email : Option String := none
  phone : Option String := none
  role_tags : List String := []
  communities : List String := []
  asset_classes : List String := []
  buy_box : Option BuyBox := none
  hot_plate : Option String := none
  i_can_help_with : Option String := none
  help_me_with : Option String := none
  message_to_world : Option String := none
  blinq : Option String := none
  website : Option String := none
  social_media : List SocialLink := []
deriving Repr, DecidableEq

/-- `ExtractedContact`: contact information extracted from the transcript. -/
structure ExtractedContact where
  name : String
  email : Option String := none
  phone : Option String := none
  role : Option String := none
deriving Repr, DecidableEq

/-- `MeetingSummary`: summary of the meeting discussion. -/
structure MeetingSummary where
  summary : String
  key_topics : List String := []
deriving Repr, DecidableEq

/-- `IntentAnalysis`: result of LLM intent analysis on a chunk. -/
structure IntentAnalysis where
  services : List ExtractedService := []
  profiles : List ExtractedProfile := []
  noise_message_ids : List Nat := []
deriving Repr, DecidableEq

/-- `ExtractedMeetingData`: complete extraction result for a meeting. -/
structure ExtractedMeetingData where
  contacts : List ExtractedContact
  services : List ExtractedService
  summary : MeetingSummary
  cleaned_transcript : List CleanedMessage := []
  profiles : List ExtractedProfile := []
deriving Repr, DecidableEq

/-- `ValidationResult`: result of validating a single service. -/
structure ValidationResult where
  is_valid : Bool
  reason : String := ""
deriving Repr, DecidableEq

/-- Regex-derived hard contact data for one sender
(the per-name entry of the `contacts_map` built by `extract_hard_contact_info`).
`roles` and `links` are Python sets; modelled as duplicate-free lists. -/
structure ContactInfo where
  email : Option String := none
  phone : Option String := none
  links : List String := []
  roles : List String := []
deriving Repr, DecidableEq

/-! ## Chunker (`extraction_graph.parse_and_chunk_node`, lines 84-101) -/

def CHUNK_SIZE : Nat := 50
def CHUNK_OVERLAP : Nat := 5

/-- The `while start < total_msgs` loop of `parse_and_chunk_node.parse_logic`:
slice `[start : min (start+CHUNK_SIZE) total)`, stop when the slice reaches the
end, otherwise advance `start` by `CHUNK_SIZE - CHUNK_OVERLAP`.
`(msgs.drop start).take CHUNK_SIZE` is the Python slice
`raw_messages[start : min (start+CHUNK_SIZE) total]`. -/
def chunkLoop (msgs : List CleanedMessage) (start : Nat) : List (List CleanedMessage) :=
  if _h : start < msgs.length then
    let c := (msgs.drop start).take CHUNK_SIZE
    if msgs.length ≤ start + CHUNK_SIZE then [c]
    else c :: chunkLoop msgs (start + (CHUNK_SIZE - CHUNK_OVERLAP))
  else []
termination_by msgs.length - start
decreasing_by simp only [CHUNK_SIZE, CHUNK_OVERLAP] at *; omega

/-- Chunk creation from `parse_and_chunk_node.parse_logic`: no chunks for an
empty message list, a single chunk when `total_msgs ≤ CHUNK_SIZE`, otherwise
the sliding-window loop. -/
def make_chunks (raw_messages : List CleanedMessage) : List (List CleanedMessage) :=
  if raw_messages.isEmpty then []
  else if raw_messages.length ≤ CHUNK_SIZE then [raw_messages]
  else chunkLoop raw_messages 0

/-! ## Merger/Deduplicator (`extraction_graph.deduplicate_and_finalize_node.finalize_logic`) -/

/-- The dedup key `svc_id` of line 174:
`f"{svc.type}|{svc.contact_name}|{svc.description[:50]}"`. -/
def service_key (s : ExtractedService) : String :=
  s.type ++ "|" ++ s.contact_name ++ "|" ++ String.mk (s.description.data.take 50)

/-- The service loop of `finalize_logic` (lines 172-177): append a service to
`all_services` unless its key is already in `seen_service_hashes`. -/
def dedup_services_go : List ExtractedService → List String → List ExtractedService
  | [], _ => []
  | s :: rest, seen =>
    if service_key s ∈ seen then dedup_services_go rest seen
    else s :: dedup_services_go rest (service_key s :: seen)

/-- All services of all chunk results, in chunk-index order, deduplicated by
`service_key` with first occurrence kept (lines 163-177). -/
def merge_services (chunk_results : List IntentAnalysis) : List ExtractedService :=
  dedup_services_go (chunk_results.flatMap (·.services)) []

/-- Python `list(set(a + b))`: the union, with duplicates removed.
Python's `set` iteration order is unspecified; we fix first-occurrence order.
The theorems below consume this only through `List.toFinset`. -/
def pyListSet (l : List String) : List String := l.dedup

/-- Scalar field merge of lines 191-202: the existing value is kept unless it
is falsy and the incoming value is truthy (first non-empty writer wins). -/
def firstTruthy (a b : Option String) : Option String :=
  if !pyTruthyStr a && pyTruthyStr b then b else a

/-- Social link merge of lines 205-210: append each incoming link whose
platform (case-insensitively) is not already present. -/
def mergeSocial (existing incoming : List SocialLink) : List SocialLink :=
  incoming.foldl
    (fun acc link =>
      if acc.any (fun s => lowerStr s.platform == lowerStr link.platform) then acc
      else acc ++ [link])
    existing

/-- Buy box merge of lines 212-219: an incoming buy box replaces a missing
one, and overwrites an existing one only when its `min_price` is truthy or
its `assets` list is non-empty. -/
def merge_buy_box (existing incoming : Option BuyBox) : Option BuyBox :=
  match incoming with
  | none => existing
  | some nb =>
    match existing with
    | none => some nb
    | some _ => if pyTruthyNum nb.min_price || !nb.assets.isEmpty then some nb else existing

/-- The profile merge branch of `finalize_logic` (lines 184-219), merging an
incoming fragment `prof` into the `existing` entry of `profiles_map`. -/
def merge_profile (existing prof : ExtractedProfile) : ExtractedProfile :=
  { existing with
    communities := pyListSet (existing.communities ++ prof.communities)
    asset_classes := pyListSet (existing.asset_classes ++ prof.asset_classes)
    role_tags := pyListSet (existing.role_tags ++ prof.role_tags)
    hot_plate := firstTruthy existing.hot_plate prof.hot_plate
    i_can_help_with := firstTruthy existing.i_can_help_with prof.i_can_help_with
    help_me_with := firstTruthy existing.help_me_with prof.help_me_with
    message_to_world := firstTruthy existing.message_to_world prof.message_to_world
    blinq := firstTruthy existing.blinq prof.blinq
    social_media := mergeSocial existing.social_media prof.social_media
    buy_box := merge_buy_box existing.buy_box prof.buy_box }

/-- Association-list lookup for the insertion-ordered Python dicts
(`profiles_map`, `contacts_map`). -/
def lookupName {α : Type} (m : List (String × α)) (name : String) : Option α :=
  (m.find? (fun p => p.1 == name)).map (·.2)

/-- The profile loop body of `finalize_logic` (lines 180-219): a fragment for
a new name is inserted, a fragment for a known name is merged in place. -/
def insert_profile (m : List (String × ExtractedProfile)) (prof : ExtractedProfile) :
    List (String × ExtractedProfile) :=
  match lookupName m prof.name with
  | none => m ++ [(prof.name, prof)]
  | some _ => m.map (fun p => if p.1 == prof.name then (p.1, merge_profile p.2 prof) else p)

/-- `profiles_map` after `finalize_logic`: all profile fragments of all chunk
results, in chunk-index order, grouped by name. -/
def merge_profiles (chunk_results : List IntentAnalysis) : List (String × ExtractedProfile) :=
  (chunk_results.flatMap (·.profiles)).foldl insert_profile []

/-! ## Validator (`hybrid_extraction.validate_services`, lines 435-514)

The per-batch LLM call outcomes are an oracle input, one entry per batch in
batch order: `Except.error e` models `invoke_with_retry` raising after retry
exhaustion (the `except Exception` path of lines 512-514), `Except.ok none`
models a falsy response, and `Except.ok (some rs)` a response with result
list `rs` (a wrong-length `rs` models a non-conformant one). -/

def BATCH_SIZE : Nat := 20

/-- Per-batch keep logic (lines 494-508): with a response of matching length,
keep exactly the services whose result has `is_valid`, in input order;
otherwise keep the whole batch. -/
def keep_batch (resp : Option (List ValidationResult)) (batch : List ExtractedService) :
    List ExtractedService :=
  match resp with
  | some results =>
    if results.length == batch.length then
      (batch.zip results).filterMap (fun p => if p.2.is_valid then some p.1 else none)
    else batch
  | none => batch

/-- The batch loop inside the `try` of `validate_services` (lines 447-510):
process the service list in slices of `BATCH_SIZE`, consuming one oracle
outcome per batch; an exception raised by any batch call aborts the whole
loop (discarding everything accumulated so far), otherwise the kept services
are concatenated in order. -/
def validate_batches_go (resps : List (Except String (Option (List ValidationResult))))
    (svcs : List ExtractedService) : Except String (List ExtractedService) :=
  if svcs.isEmpty then Except.ok []
  else
    match resps.head?.getD (Except.ok none) with
    | Except.error e => Except.error e
    | Except.ok r =>
      match validate_batches_go resps.tail (svcs.drop BATCH_SIZE) with
      | Except.error e => Except.error e
      | Except.ok rest => Except.ok (keep_batch r (svcs.take BATCH_SIZE) ++ rest)
termination_by svcs.length
decreasing_by
  simp only [BATCH_SIZE, List.length_drop]
  cases svcs with
  | nil => simp at *
  | cons a l => simp; omega

/-- `validate_services` (lines 435-514): run the batch loop; on an escaping
exception the `except Exception` handler of lines 512-514 returns the
original, unfiltered service list. -/
def validate_services (resps : List (Except String (Option (List ValidationResult))))
    (svcs : List ExtractedService) : List ExtractedService :=
  match validate_batches_go resps svcs with
  | Except.ok validated => validated
  | Except.error _ => svcs

/-! ## Noise set (`build_final_data`, lines 284-289) -/

/-- `all_noise_ids`: the union of the `noise_message_ids` of all chunk
results. A Python set consumed only through membership; modelled as the
concatenation. -/
def all_noise_ids (chunk_results : List IntentAnalysis) : List Nat :=
  chunk_results.flatMap (·.noise_message_ids)

/-- `final_transcript` (line 289): the parsed messages whose id is not in the
noise set, in original order. -/
def final_transcript (raw_messages : List CleanedMessage)
    (chunk_results : List IntentAnalysis) : List CleanedMessage :=
  raw_messages.filter (fun m => m.id ∉ all_noise_ids chunk_results)

/-! ## Small regex building blocks

Each Python regex of the source is embedded as a specialised matcher over
`List Char`, reproducing `re` semantics (leftmost match, greedy/lazy
priority, word boundaries) for the concrete pattern at hand. -/

/-- Consume exactly `n` digit characters. -/
def takeDigits : Nat → List Char → Option (List Char × List Char)
  | 0, cs => some ([], cs)
  | n + 1, c :: cs =>
    if isPyDigit c then (takeDigits n cs).map (fun p => (c :: p.1, p.2)) else none
  | _ + 1, [] => none

/-- Consume a literal, case-insensitively when `ci` is set. -/
def takeLit (lit : List Char) (ci : Bool) (cs : List Char) : Option (List Char × List Char) :=
  match lit, cs with
  | [], rest => some ([], rest)
  | l :: ls, c :: rest =>
    if (if ci then toLowerCh c == toLowerCh l else c == l) then
      (takeLit ls ci rest).map (fun p => (c :: p.1, p.2))
    else none
  | _ :: _, [] => none

/-- Consume a maximal non-empty whitespace run (`\s+` when the next pattern
element cannot match whitespace, so no backtracking arises). -/
def takeWs1 (cs : List Char) : Option (List Char × List Char) :=
  let ws := cs.takeWhile isPySpace
  if ws.isEmpty then none else some (ws, cs.drop ws.length)

/-! ## The Zoom header pattern (`ZOOM_MSG_PATTERN`, `hybrid_extraction.py` 138-141)

`((?:\d{4}-\d{2}-\d{2}\s+)?\d{1,2}:\d{2}(?::\d{2})?)\s+From\s+(.+?)\s+to\s+Everyone:\s*(.*)`
with `re.IGNORECASE`, applied with `.search`. -/

/-- The optional date prefix `\d{4}-\d{2}-\d{2}\s+` inside group 1. -/
def takeDatePart (cs : List Char) : Option (List Char × List Char) := do
  let (d1, r1) ← takeDigits 4 cs
  let (h1, r2) ← takeLit ['-'] false r1
  let (d2, r3) ← takeDigits 2 r2
  let (h2, r4) ← takeLit ['-'] false r3
  let (d3, r5) ← takeDigits 2 r4
  let (ws, r6) ← takeWs1 r5
  return (d1 ++ h1 ++ d2 ++ h2 ++ d3 ++ ws, r6)

/-- Candidates for `\d{1,2}:\d{2}(?::\d{2})?` in backtracking priority order:
two hour digits before one, seconds present before absent. -/
def takeTime (cs : List Char) : List (List Char × List Char) :=
  let hourOpts :=
    (match takeDigits 2 cs with | some p => [p] | none => []) ++
    (match takeDigits 1 cs with | some p => [p] | none => [])
  hourOpts.flatMap (fun hp =>
    match takeLit [':'] false hp.2 with
    | none => []
    | some (c1, r2) =>
      match takeDigits 2 r2 with
      | none => []
      | some (m, r3) =>
        let withSecs :=
          match takeLit [':'] false r3 with
          | some (c2, r4) =>
            match takeDigits 2 r4 with
            | some (s, r5) => [(hp.1 ++ c1 ++ m ++ c2 ++ s, r5)]
            | none => []
          | none => []
        withSecs ++ [(hp.1 ++ c1 ++ m, r3)])

/-- Candidates for group 1, in priority order: the greedy optional date prefix
is tried before its absence. -/
def takeGroup1 (cs : List Char) : List (List Char × List Char) :=
  (match takeDatePart cs with
   | some dp => (takeTime dp.2).map (fun p => (dp.1 ++ p.1, p.2))
   | none => []) ++ takeTime cs

/-- Splits of a leading whitespace run, longest first (the greedy `\s+` right
before the lazy sender group, which can require backtracking because `.`
matches whitespace). -/
def wsSplitsDesc (cs : List Char) : List (List Char × List Char) :=
  let n := (cs.takeWhile isPySpace).length
  (List.range n).map (fun i => (cs.take (n - i), cs.drop (n - i)))

/-- After the sender: `\s+to\s+Everyone:\s*(.*)` (case-insensitive);
returns group 3. The literals following each `\s+`/`\s*` cannot match
whitespace, so maximal munch is exact; `.` stops at a newline. -/
def tryToEveryone (cs : List Char) : Option String := do
  let (_, r1) ← takeWs1 cs
  let (_, r2) ← takeLit ['t', 'o'] true r1
  let (_, r3) ← takeWs1 r2
  let (_, r4) ← takeLit ['e', 'v', 'e', 'r', 'y', 'o', 'n', 'e', ':'] true r3
  let rest := r4.dropWhile isPySpace
  return String.mk (rest.takeWhile (· != '\n'))

/-- The lazy sender group `(.+?)`: grow the sender one character at a time,
taking the first point where the rest of the pattern matches. -/
def senderLoop (acc : List Char) : List Char → Option (String × String)
  | c :: rest =>
    if c == '\n' then none
    else
      match tryToEveryone rest with
      | some g3 => some (String.mk (acc ++ [c]), g3)
      | none => senderLoop (acc ++ [c]) rest
  | [] => none

/-- Attempt the full pattern anchored at the current position. -/
def zoomMatchAt (cs : List Char) : Option (String × String × String) :=
  (takeGroup1 cs).findSome? (fun g1p =>
    match takeWs1 g1p.2 with
    | none => none
    | some (_, r1) =>
      match takeLit ['f', 'r', 'o', 'm'] true r1 with
      | none => none
      | some (_, r2) =>
        (wsSplitsDesc r2).findSome? (fun wp =>
          (senderLoop [] wp.2).map (fun sg => (String.mk g1p.1, sg.1, sg.2))))

/-- `re.search`: try each start position from the left. -/
def zoomSearch : List Char → Option (String × String × String)
  | [] => none
  | c :: rest =>
    match zoomMatchAt (c :: rest) with
    | some r => some r
    | none => zoomSearch rest

/-- `ZOOM_MSG_PATTERN.search(line)`, yielding the three groups
(timestamp, raw sender, body) when the line is a message header. -/
def matchZoomHeader (line : String) : Option (String × String × String) :=
  zoomSearch line.data

/-! ## Sender cleaning (`hybrid_extraction.clean_sender_name`, lines 240-299) -/

/-- `re.sub(r'\b\d{10,}\b', '', name)`: remove every maximal digit run of
length ≥ 10 that is word-bounded on both sides. `prevIsWord` tracks whether
the previous original character is a word character (for `\b`); on a failed
candidate the scan advances one character, and no later start inside the run
can satisfy the left boundary. -/
def sub10Fuel : Nat → Bool → List Char → List Char
  | 0, _, cs => cs
  | fuel + 1, prevIsWord, cs =>
    match cs with
    | [] => []
    | c :: rest =>
      if !prevIsWord && isPyDigit c then
        let tailRun := rest.takeWhile isPyDigit
        let rest2 := rest.drop tailRun.length
        if 9 ≤ tailRun.length &&
            (match rest2.head? with | none => true | some d => !isWordChar d) then
          sub10Fuel fuel true rest2
        else c :: sub10Fuel fuel true rest
      else c :: sub10Fuel fuel (isWordChar c) rest

def sub10Go (prevIsWord : Bool) (cs : List Char) : List Char :=
  sub10Fuel (cs.length + 1) prevIsWord cs

/-- The separator class `[-.)\s]` of the formatted-phone pattern. -/
def isSepPR (c : Char) : Bool := c == '-' || c == '.' || c == ')' || isPySpace c

/-- Consume one optional separator (`[-.)\s]?`); separators and digits are
disjoint, so the greedy option is forced. -/
def takeOptSep (cs : List Char) : Nat × List Char :=
  match cs with
  | c :: rest => if isSepPR c then (1, rest) else (0, cs)
  | [] => (0, cs)

/-- Match `\b\d{3}[-.)\s]?\d{3}[-.)\s]?\d{4}\b` anchored here (left boundary
checked by the caller); returns the match length. -/
def matchPhoneFmtAt (cs : List Char) : Option Nat := do
  let (_, r1) ← takeDigits 3 cs
  let (n1, r2) := takeOptSep r1
  let (_, r3) ← takeDigits 3 r2
  let (n2, r4) := takeOptSep r3
  let (_, r5) ← takeDigits 4 r4
  match r5.head? with
  | some c => if isWordChar c then none else return 10 + n1 + n2
  | none => return 10 + n1 + n2

/-- `re.sub(r'\b\d{3}[-.)\s]?\d{3}[-.)\s]?\d{4}\b', '', name)`. -/
def subPhoneFuel : Nat → Bool → List Char → List Char
  | 0, _, cs => cs
  | fuel + 1, prevIsWord, cs =>
    match cs with
    | [] => []
    | c :: rest =>
      if !prevIsWord then
        match matchPhoneFmtAt cs with
        | some n => subPhoneFuel fuel true (rest.drop (n - 1))
        | none => c :: subPhoneFuel fuel (isWordChar c) rest
      else c :: subPhoneFuel fuel (isWordChar c) rest

def subPhoneGo (prevIsWord : Bool) (cs : List Char) : List Char :=
  subPhoneFuel (cs.length + 1) prevIsWord cs

/-- `re.sub(r'\b' + w + r'\b', '', name)` for a case-sensitive literal word
starting and ending in word characters. -/
def removeWordFuel (w : List Char) : Nat → Bool → List Char → List Char
  | 0, _, cs => cs
  | fuel + 1, prevIsWord, cs =>
    match cs with
    | [] => []
    | c :: rest =>
      if !prevIsWord then
        match takeLit w false cs with
        | some (_, r) =>
          if (match r.head? with | none => true | some d => !isWordChar d) then
            removeWordFuel w fuel true (rest.drop (w.length - 1))
          else c :: removeWordFuel w fuel (isWordChar c) rest
        | none => c :: removeWordFuel w fuel (isWordChar c) rest
      else c :: removeWordFuel w fuel (isWordChar c) rest

def removeWordCS (w : List Char) (prevIsWord : Bool) (cs : List Char) : List Char :=
  removeWordFuel w (cs.length + 1) prevIsWord cs

/-- The role tag patterns of lines 261-271, in source order. -/
def role_patterns : List (List Char) :=
  [['T', 'C'], ['T', 'T', 'T', 'C'], ['T', 'M'], ['E', 'A'], ['V', 'A'],
   ['D', 'T', 'S'], ['D', 'T', 'A'], ['Z', 'D', 'B'], ['O', 'C']]

/-- Lines 273-274: apply each role tag removal in order. -/
def removeRoleTags (cs : List Char) : List Char :=
  role_patterns.foldl (fun acc w => removeWordCS w false acc) cs

/-- `re.sub(r'[^\x00-\x7F]+', '', name)`: keep only ASCII characters. -/
def removeNonAscii (cs : List Char) : List Char := cs.filter (fun c => c.toNat ≤ 0x7F)

/-- The 50 US state codes of lines 281-287, in source order. -/
def state_codes : List String :=
  ["AL", "AK", "AZ", "AR", "CA", "CO", "CT", "DE", "FL", "GA",
   "HI", "ID", "IL", "IN", "IA", "KS", "KY", "LA", "ME", "MD",
   "MA", "MI", "MN", "MS", "MO", "MT", "NE", "NV", "NH", "NJ",
   "NM", "NY", "NC", "ND", "OH", "OK", "OR", "PA", "RI", "SC",
   "SD", "TN", "TX", "UT", "VT", "VA", "WA", "WV", "WI", "WY"]

/-- `re.sub(rf'\s+{state}\s*$', '', name)`: if the name, after its trailing
whitespace, ends in the state code preceded by at least one whitespace
character, cut everything from the start of that whitespace run (the leftmost
`\s+` start absorbs the whole run). -/
def stripStateCode (code : List Char) (cs : List Char) : List Char :=
  let r := cs.reverse.dropWhile isPySpace
  match takeLit code.reverse false r with
  | some (_, r2) =>
    let wsRun := r2.takeWhile isPySpace
    if wsRun.isEmpty then cs else (r2.drop wsRun.length).reverse
  | none => cs

/-- Lines 288-290: apply each state code removal in order. -/
def removeStateCodes (cs : List Char) : List Char :=
  state_codes.foldl (fun acc st => stripStateCode st.data acc) cs

/-- `re.sub(r'\s+', ' ', name)`: collapse every whitespace run to one space. -/
def collapseWsFuel : Nat → List Char → List Char
  | 0, cs => cs
  | fuel + 1, cs =>
    match cs with
    | [] => []
    | c :: rest =>
      if isPySpace c then
        ' ' :: collapseWsFuel fuel (rest.drop (rest.takeWhile isPySpace).length)
      else c :: collapseWsFuel fuel rest

def collapseWs (cs : List Char) : List Char := collapseWsFuel (cs.length + 1) cs

/-- The cleaning pipeline of `clean_sender_name` before the length guard
(lines 251-293). -/
def clean_core (raw_name : String) : List Char :=
  let name0 := pyStripChars raw_name.data
  let name1 := sub10Go false name0
  let name2 := subPhoneGo false name1
  let name3 := removeRoleTags name2
  let name4 := removeNonAscii name3
  let name5 := removeStateCodes name4
  pyStripChars (collapseWs name5)

/-- `clean_sender_name` (lines 240-299): clean the raw sender; if the cleaned
name has fewer than 2 characters, fall back to the stripped original. -/
def clean_sender_name (raw_name : String) : String :=
  let name := clean_core raw_name
  if name.length < 2 then pyStrip raw_name else String.mk name

/-! ## Transcript parser (`hybrid_extraction.parse_transcript_lines`, lines 174-215) -/

/-- Python `text.split(sep)` (single-character separator; keeps empty parts). -/
def pySplitGo (sep : Char) (acc : List Char) : List Char → List String
  | [] => [String.mk acc.reverse]
  | c :: rest =>
    if c == sep then String.mk acc.reverse :: pySplitGo sep [] rest
    else pySplitGo sep (c :: acc) rest

/-- `text.split('\n')`. -/
def splitLines (text : String) : List String := pySplitGo '\n' [] text.data

/-- The message opened by a header line (lines 191-203): groups are stripped,
the sender is cleaned, and the message takes the next sequential id. -/
def mkMsg (idx : Nat) (g : String × String × String) : CleanedMessage :=
  { id := idx, sender := clean_sender_name (pyStrip g.2.1),
    message := pyStrip g.2.2, timestamp := some (pyStrip g.1) }

/-- Line 209: `current_msg.message += " " + cleaned_line`. -/
def appendBody (m : CleanedMessage) (cl : String) : CleanedMessage :=
  { m with message := m.message ++ " " ++ cl }

/-- The line loop of `parse_transcript_lines`: a header line flushes the open
message and starts a new one with the next sequential id; a non-header,
non-blank line is appended (space-joined) to the open message; a non-header
line with no open message is dropped; the trailing open message is flushed at
the end of input. -/
def parseGo : List String → Nat → Option CleanedMessage → List CleanedMessage
  | [], _, cur => cur.toList
  | line :: rest, idx, cur =>
    match matchZoomHeader line with
    | some g => cur.toList ++ parseGo rest (idx + 1) (some (mkMsg idx g))
    | none =>
      match cur with
      | some m =>
        let cl := pyStrip line
        if cl.isEmpty then parseGo rest idx (some m)
        else parseGo rest idx (some (appendBody m cl))
      | none => parseGo rest idx none

/-- `parse_transcript_lines` on an already split line list. -/
def parseLines (lines : List String) : List CleanedMessage := parseGo lines 0 none

/-- `parse_transcript_lines(text)`. -/
def parse_transcript_lines (text : String) : List CleanedMessage :=
  parseLines (splitLines text)

/-! ## Hard contact extraction (`hybrid_extraction.py`, lines 133-135, 218-237, 302-337) -/

/-- One candidate match of `PHONE_REGEX`
(`\(?\d{3}\)?[\s.-]?\d{3}[\s.-]?\d{4}`, no word boundaries) anchored here;
returns (matched text, rest). Every optional element is followed by a pattern
element it cannot satisfy, so greedy choice is forced. -/
def matchPhoneAt (cs : List Char) : Option (List Char × List Char) := do
  let (p0, r0) :=
    match cs with
    | '(' :: rest => (['('], rest)
    | _ => ([], cs)
  let (d1, r1) ← takeDigits 3 r0
  let (p1, r2) :=
    match r1 with
    | ')' :: rest => ([')'], rest)
    | _ => ([], r1)
  let (s1, r3) :=
    match r2 with
    | c :: rest => if c == '.' || c == '-' || isPySpace c then ([c], rest) else ([], r2)
    | [] => ([], r2)
  let (d2, r4) ← takeDigits 3 r3
  let (s2, r5) :=
    match r4 with
    | c :: rest => if c == '.' || c == '-' || isPySpace c then ([c], rest) else ([], r4)
    | [] => ([], r4)
  let (d3, r6) ← takeDigits 4 r5
  return (p0 ++ d1 ++ p1 ++ s1 ++ d2 ++ s2 ++ d3, r6)

/-- Character class of the email local part, `[a-zA-Z0-9._%+-]`. -/
def isEmailLocal (c : Char) : Bool :=
  ('a' ≤ c && c ≤ 'z') || ('A' ≤ c && c ≤ 'Z') || isPyDigit c ||
    c == '.' || c == '_' || c == '%' || c == '+' || c == '-'

/-- Character class of the email domain, `[a-zA-Z0-9.-]`. -/
def isEmailDomain (c : Char) : Bool :=
  ('a' ≤ c && c ≤ 'z') || ('A' ≤ c && c ≤ 'Z') || isPyDigit c || c == '.' || c == '-'

def isAsciiAlpha (c : Char) : Bool := ('a' ≤ c && c ≤ 'z') || ('A' ≤ c && c ≤ 'Z')

/-- Backtracking of `[a-zA-Z0-9.-]+\.[a-zA-Z]{2,}` inside the maximal domain
run `d`: try the longest `+` first, so find the largest split at a dot that is
followed by at least two letters; the final `[a-zA-Z]{2,}` is greedy. -/
def emailDomainSplit (d : List Char) : Option (List Char) :=
  (List.range d.length).findSome? (fun i =>
    let cut := d.length - 1 - i
    if h : cut < d.length then
      if d.get ⟨cut, h⟩ == '.' && 1 ≤ cut then
        let tld := (d.drop (cut + 1)).takeWhile isAsciiAlpha
        if 2 ≤ tld.length then some (d.take (cut + 1) ++ tld) else none
      else none
    else none)

/-- One candidate match of `EMAIL_REGEX`
(`[a-zA-Z0-9._%+-]+@[a-zA-Z0-9.-]+\.[a-zA-Z]{2,}`) anchored here. -/
def matchEmailAt (cs : List Char) : Option (List Char × List Char) :=
  let loc := cs.takeWhile isEmailLocal
  if loc.isEmpty then none
  else
    match cs.drop loc.length with
    | '@' :: r1 =>
      let dom := r1.takeWhile isEmailDomain
      match emailDomainSplit dom with
      | some d => some (loc ++ '@' :: d, r1.drop d.length)
      | none => none
    | _ => none

/-- One candidate match of `URL_REGEX` (`https?://[^\s]+`) anchored here. -/
def matchUrlAt (cs : List Char) : Option (List Char × List Char) := do
  let (h1, r1) ← takeLit ['h', 't', 't', 'p'] false cs
  let (s, r2) :=
    match r1 with
    | 's' :: rest => (['s'], rest)
    | _ => ([], r1)
  let (sl, r3) ← takeLit [':', '/', '/'] false r2
  let body := r3.takeWhile (fun c => !isPySpace c)
  if body.isEmpty then none
  else return (h1 ++ s ++ sl ++ body, r3.drop body.length)

/-- `re.findall`: scan left to right, collecting non-overlapping matches. -/
def findAllFuel (matchAt : List Char → Option (List Char × List Char)) :
    Nat → List Char → List String
  | 0, _ => []
  | fuel + 1, cs =>
    match cs with
    | [] => []
    | c :: rest =>
      match matchAt (c :: rest) with
      | some m =>
        if m.2.length < (c :: rest).length then
          String.mk m.1 :: findAllFuel matchAt fuel m.2
        else String.mk m.1 :: findAllFuel matchAt fuel rest
      | none => findAllFuel matchAt fuel rest

def findAll (matchAt : List Char → Option (List Char × List Char)) (s : String) :
    List String :=
  findAllFuel matchAt (s.data.length + 1) s.data

/-- `ROLES_MAP` (`hybrid_extraction.py`, lines 144-167), in insertion order. -/
def ROLES_MAP : List (String × String) :=
  [("TC", "Transaction Coordinator"),
   ("TTTC", "Top Tier Transaction Coordinator"),
   ("TTC", "Transaction Coordinator"),
   ("Gator", "Gator Lender"),
   ("🐊", "Gator Lender"),
   ("Subto", "Subto Student"),
   ("✌️", "Subto Student"),
   ("✌🏼", "Subto Student"),
   ("✌🏽", "Subto Student"),
   ("✌🏾", "Subto Student"),
   ("✌", "Subto Student"),
   ("OC", "Owners Club"),
   ("Bird Dog", "Bird Dog"),
   ("BirdDog", "Bird Dog"),
   ("🐕", "Bird Dog"),
   ("🐶", "Bird Dog"),
   ("🐦", "Bird Dog"),
   ("DTS", "Direct To Seller"),
   ("DTA", "Direct To Agent"),
   ("ZD", "Zero Down Business"),
   ("ZDB", "Zero Down Business"),
   ("Zero Down", "Zero Down Business")]

/-- Substring containment (Python `marker in text`). -/
def containsSub (pat : List Char) : List Char → Bool
  | [] => pat.isEmpty
  | c :: rest => (takeLit pat false (c :: rest)).isSome || containsSub pat rest

/-- `re.search(r'\b' + re.escape(marker) + r'\b', text)` for a marker that
starts and ends in word characters. -/
def wordSearch (ci : Bool) (pat : List Char) (prevIsWord : Bool) : List Char → Bool
  | [] => false
  | c :: rest =>
    (!prevIsWord &&
      (match takeLit pat ci (c :: rest) with
       | some p => (match p.2.head? with | none => true | some d => !isWordChar d)
       | none => false)) ||
    wordSearch ci pat (isWordChar c) rest

/-- `extract_roles` (lines 218-237): emoji markers by containment, alphabetic
markers longer than 2 case-insensitively with word boundaries, the rest
case-sensitively with word boundaries. The result is a Python set; modelled
as a duplicate-free list in `ROLES_MAP` order. -/
def extract_roles (text : String) : List String :=
  ROLES_MAP.foldl
    (fun found p =>
      let marker := p.1
      let hit :=
        if !(marker.data.all (fun c => c.toNat ≤ 0x7F)) then
          containsSub marker.data text.data
        else if 2 < marker.length && marker.data.all isAsciiAlpha then
          wordSearch true marker.data false text.data
        else
          wordSearch false marker.data false text.data
      if hit && p.2 ∉ found then found ++ [p.2] else found)
    []

/-- The per-message update of `extract_hard_contact_info` (lines 309-335):
run the three `findall`s over `f"{sender} {text}"`, collect roles from sender
and message, keep the first phone/email seen, union the links. -/
def updateContactInfo (info : ContactInfo) (sender text : String) : ContactInfo :=
  let combined := sender ++ " " ++ text
  let phones := findAll matchPhoneAt combined
  let emails := findAll matchEmailAt combined
  let urls := findAll matchUrlAt combined
  { email := if !emails.isEmpty && !pyTruthyStr info.email then emails.head? else info.email
    phone := if !phones.isEmpty && !pyTruthyStr info.phone then phones.head? else info.phone
    links := (info.links ++ urls).dedup
    roles := (info.roles ++ extract_roles sender ++ extract_roles text).dedup }

def insertContactInfo (m : List (String × ContactInfo)) (msg : CleanedMessage) :
    List (String × ContactInfo) :=
  match lookupName m msg.sender with
  | none => m ++ [(msg.sender, updateContactInfo {} msg.sender msg.message)]
  | some _ =>
    m.map (fun p =>
      if p.1 == msg.sender then (p.1, updateContactInfo p.2 msg.sender msg.message) else p)

/-- `extract_hard_contact_info` (lines 302-337): the insertion-ordered map
from sender name to regex-derived contact data. -/
def extract_hard_contact_info (messages : List CleanedMessage) :
    List (String × ContactInfo) :=
  messages.foldl insertContactInfo []

/-! ## Finalizer (`extraction_graph.deduplicate_and_finalize_node`, lines 148-305) -/

/-- `finalize_logic` (lines 163-224): merged deduplicated services, the regex
contact map, and the merged profile map. -/
def finalize_logic (chunk_results : List IntentAnalysis)
    (raw_messages : List CleanedMessage) :
    List ExtractedService × List (String × ContactInfo) × List (String × ExtractedProfile) :=
  (merge_services chunk_results, extract_hard_contact_info raw_messages,
    merge_profiles chunk_results)

/-- Names considered for the final contact list (line 242):
`set(contacts_map.keys()) | set(profiles_map.keys())`, modelled in first-seen
order. -/
def all_names (contacts_map : List (String × ContactInfo))
    (profiles_map : List (String × ExtractedProfile)) : List String :=
  (contacts_map.map (·.1) ++ profiles_map.map (·.1)).dedup

/-- The contact constructed at lines 257-279 for an included name: role
string from the union of regex roles and AI role tags (set order fixed as
first-seen), email/phone preferring the regex value with fall back to a
truthy AI profile value. -/
def build_contact (name : String) (regex_info : ContactInfo)
    (ai_profile : Option ExtractedProfile) : ExtractedContact :=
  let roles_list :=
    regex_info.roles ++ (match ai_profile with | some p => p.role_tags | none => [])
  let role_str :=
    if roles_list.isEmpty then none
    else some (String.intercalate ", " roles_list.dedup)
  let email :=
    match ai_profile with
    | some p =>
      if !pyTruthyStr regex_info.email && pyTruthyStr p.email then p.email
      else regex_info.email
    | none => regex_info.email
  let phone :=
    match ai_profile with
    | some p =>
      if !pyTruthyStr regex_info.phone && pyTruthyStr p.phone then p.phone
      else regex_info.phone
    | none => regex_info.phone
  { name := name, email := email, phone := phone, role := role_str }

/-- The relevance check of lines 251-256: a name is included when it has a
validated service, or hard contact data, or a rich AI profile (non-empty
communities, a buy box object, or role tags). -/
def name_included (contacts_map : List (String × ContactInfo))
    (profiles_map : List (String × ExtractedProfile))
    (validated_services : List ExtractedService) (name : String) : Bool :=
  let regex_info := (lookupName contacts_map name).getD {}
  let has_service := validated_services.any (fun s => s.contact_name == name)
  let has_contact_data :=
    pyTruthyStr regex_info.email || pyTruthyStr regex_info.phone ||
      !regex_info.roles.isEmpty
  let has_rich_data :=
    match lookupName profiles_map name with
    | some p => !p.communities.isEmpty || p.buy_box.isSome || !p.role_tags.isEmpty
    | none => false
  has_service || has_contact_data || has_rich_data

/-- `build_final_data` (lines 234-297): for each name of
`set(contacts_map) | set(profiles_map)` that passes the relevance check,
append one contact (and the AI profile when one exists); attach the validated
services, the summary, and the noise-filtered transcript. The appending loop
over `all_names` is written as `filterMap`. -/
def build_final_data (raw_messages : List CleanedMessage)
    (chunk_results : List IntentAnalysis) (summary : MeetingSummary)
    (contacts_map : List (String × ContactInfo))
    (profiles_map : List (String × ExtractedProfile))
    (validated_services : List ExtractedService) : ExtractedMeetingData :=
  { contacts :=
      (all_names contacts_map profiles_map).filterMap (fun name =>
        if name_included contacts_map profiles_map validated_services name then
          some (build_contact name ((lookupName contacts_map name).getD {})
            (lookupName profiles_map name))
        else none)
    services := validated_services
    summary := summary
    cleaned_transcript := final_transcript raw_messages chunk_results
    profiles :=
      (all_names contacts_map profiles_map).filterMap (fun name =>
        if name_included contacts_map profiles_map validated_services name then
          lookupName profiles_map name
        else none) }

/-! ## Pipeline orchestration (`extraction_graph.py` lines 70-388,
`api/upload.py` lines 16-31) -/

/-- `extraction_map_node` (lines 109-137): per-chunk outcomes gathered with
`return_exceptions=True`; exceptions are logged and dropped, successful
`IntentAnalysis` results are kept in chunk-index order. -/
def extraction_map_results (outcomes : List (Except String IntentAnalysis)) :
    List IntentAnalysis :=
  outcomes.filterMap (fun o => match o with | .ok r => some r | .error _ => none)

/-- The chunk results entering the merge stage: per-chunk outcomes (one per
chunk, in chunk-index order) with failures dropped. -/
def pipeline_chunk_results (transcript : String)
    (chunkOutcomes : List (Except String IntentAnalysis)) : List IntentAnalysis :=
  extraction_map_results
    (chunkOutcomes.take (make_chunks (parse_transcript_lines transcript)).length)

/-- The deterministic data flow of `run_extraction_pipeline` (lines 351-388):
parse and chunk, map extraction over chunks, summarize, deduplicate and
finalize. Every LLM outcome is an oracle input: one `Except` per chunk, the
summary result, and one validator response per batch. -/
def run_extraction_pipeline (transcript : String)
    (chunkOutcomes : List (Except String IntentAnalysis))
    (summary : MeetingSummary)
    (validatorResponses : List (Except String (Option (List ValidationResult)))) :
    ExtractedMeetingData :=
  build_final_data (parse_transcript_lines transcript)
    (pipeline_chunk_results transcript chunkOutcomes) summary
    (finalize_logic (pipeline_chunk_results transcript chunkOutcomes)
      (parse_transcript_lines transcript)).2.1
    (finalize_logic (pipeline_chunk_results transcript chunkOutcomes)
      (parse_transcript_lines transcript)).2.2
    (validate_services validatorResponses
      (finalize_logic (pipeline_chunk_results transcript chunkOutcomes)
        (parse_transcript_lines transcript)).1)

/-- `run_core_extraction_logic` (`api/upload.py`, lines 19-31) wraps
`run_extraction_pipeline` in `asyncio.wait_for(..., timeout=...)`: if the
global wall-clock deadline expires, `asyncio.TimeoutError` propagates and the
caller receives no extraction data at all; otherwise the pipeline result is
returned. `timedOut` models deadline expiry. -/
def run_core_extraction (timedOut : Bool) (transcript : String)
    (chunkOutcomes : List (Except String IntentAnalysis)) (summary : MeetingSummary)
    (validatorResponses : List (Except String (Option (List ValidationResult)))) :
    Except String ExtractedMeetingData :=
  if timedOut then Except.error "asyncio.TimeoutError"
  else Except.ok (run_extraction_pipeline transcript chunkOutcomes summary validatorResponses)

/-! ## Auxiliary definitions used for specification statements and proofs -/

/-- The parser state (next id, open message) after consuming a list of lines;
mirrors the transitions of `parseGo` without emitting. -/
def parseAdvance : List String → Nat → Option CleanedMessage → Nat × Option CleanedMessage
  | [], idx, cur => (idx, cur)
  | line :: rest, idx, cur =>
    match matchZoomHeader line with
    | some g => parseAdvance rest (idx + 1) (some (mkMsg idx g))
    | none =>
      match cur with
      | some m =>
        let cl := pyStrip line
        if cl.isEmpty then parseAdvance rest idx (some m)
        else parseAdvance rest idx (some (appendBody m cl))
      | none => parseAdvance rest idx none

/-- The messages emitted by `parseGo` before the final flush. -/
def parseEmit : List String → Nat → Option CleanedMessage → List CleanedMessage
  | [], _, _ => []
  | line :: rest, idx, cur =>
    match matchZoomHeader line with
    | some g => cur.toList ++ parseEmit rest (idx + 1) (some (mkMsg idx g))
    | none =>
      match cur with
      | some m =>
        let cl := pyStrip line
        if cl.isEmpty then parseEmit rest idx (some m)
        else parseEmit rest idx (some (appendBody m cl))
      | none => parseEmit rest idx none

/-- Number of lines matching the Zoom header pattern. -/
def headerCount (lines : List String) : Nat :=
  (lines.filter (fun l => (matchZoomHeader l).isSome)).length

/-- The batches of `BATCH_SIZE` that the validator loop iterates over. -/
def service_batches (svcs : List ExtractedService) : List (List ExtractedService) :=
  if svcs.isEmpty then []
  else svcs.take BATCH_SIZE :: service_batches (svcs.drop BATCH_SIZE)
termination_by svcs.length
decreasing_by
  simp only [BATCH_SIZE, List.length_drop]
  cases svcs with
  | nil => simp at *
  | cons a l => simp; omega

/-- Pair each batch with its oracle response (missing responses become
`none`, matching the sequential head/tail consumption of the loop). -/
def with_responses (resps : List (Option (List ValidationResult))) :
    List (List ExtractedService) → List (List ExtractedService × Option (List ValidationResult))
  | [] => []
  | b :: bs => (b, resps.head?.getD none) :: with_responses resps.tail bs

/-- The specification's scalar-merge rule, "keep the first non-empty value
seen", written directly from the spec's words (for comparison with the
code's `firstTruthy`). -/
def firstNonEmpty (a b : Option String) : Option String :=
  if pyTruthyStr a then a else if pyTruthyStr b then b else a

/-- The per-name contact builder used by `build_final_data`. -/
def contact_of_name (cm : List (String × ContactInfo))
    (pm : List (String × ExtractedProfile)) (validated : List ExtractedService)
    (name : String) : Option ExtractedContact :=
  if name_included cm pm validated name then
    some (build_contact name ((lookupName cm name).getD {}) (lookupName pm name))
  else none

/-! Concrete fixtures used by witnesses and counterexamples. -/

/-- A transcript of one well-formed header line from "Alice". -/
def aliceHeader : String := "10:00 From Alice to Everyone: hi"

/-- The message `aliceHeader` parses to. -/
def aliceMsg : CleanedMessage :=
  { id := 0, sender := "Alice", message := "hi", timestamp := some "10:00" }

/-- A service attributed by the model to a name that is neither a parsed
sender nor an AI profile name. -/
def ghostService : ExtractedService :=
  { type := "offer", description := "d", contact_name := "Ghost" }

/-- A chunk analysis carrying only `ghostService`. -/
def ghostAnalysis : IntentAnalysis := { services := [ghostService] }

/-- 21 services (two validator batches); the first one is distinguishable
by its description. -/
def resurrect_services : List ExtractedService :=
  (List.range 21).map (fun i =>
    { type := "offer", description := if i == 0 then "bad" else "ok",
      contact_name := "A" })

/-- A matched-length response for the first batch of `resurrect_services`
rejecting exactly its first service. -/
def reject_first_results : List ValidationResult :=
  (List.range 20).map (fun i => { is_valid := !(i == 0), reason := "r" })

/-- The set of keys recorded in `seen_service_hashes` after scanning a
service list. -/
def seenAfter (l : List ExtractedService) (seen : List String) : List String :=
  l.foldl (fun acc s => if service_key s ∈ acc then acc else service_key s :: acc) seen

/-! # Theorems

## C5 — Chunking -/

theorem chunkLoop_single (msgs : List CleanedMessage) (start : Nat)
    (h1 : start < msgs.length) (h2 : msgs.length ≤ start + CHUNK_SIZE) :
    chunkLoop msgs start = [(msgs.drop start).take CHUNK_SIZE] := by
  rw [chunkLoop.eq_def]
  simp [h1, h2]

theorem chunkLoop_cons (msgs : List CleanedMessage) (start : Nat)
    (h1 : start < msgs.length) (h2 : ¬msgs.length ≤ start + CHUNK_SIZE) :
    chunkLoop msgs start =
      (msgs.drop start).take CHUNK_SIZE ::
        chunkLoop msgs (start + (CHUNK_SIZE - CHUNK_OVERLAP)) := by
  rw [chunkLoop.eq_def]
  simp [h1, h2]

theorem chunkLoop_stop (msgs : List CleanedMessage) (start : Nat)
    (h1 : ¬start < msgs.length) : chunkLoop msgs start = [] := by
  rw [chunkLoop.eq_def]
  simp [h1]

theorem chunkLoop_getElem (msgs : List CleanedMessage) (start : Nat) :
    ∀ i (hi : i < (chunkLoop msgs start).length),
      (chunkLoop msgs start)[i] =
        (msgs.drop (start + (CHUNK_SIZE - CHUNK_OVERLAP) * i)).take CHUNK_SIZE := by
  refine chunkLoop.induct msgs
    (fun start => ∀ i (hi : i < (chunkLoop msgs start).length),
      (chunkLoop msgs start)[i] =
        (msgs.drop (start + (CHUNK_SIZE - CHUNK_OVERLAP) * i)).take CHUNK_SIZE)
    ?_ ?_ ?_ start
  · intro start h1 h2
    intro i hi
    simp only [chunkLoop_single msgs start h1 h2, List.length_cons, List.length_nil] at hi
    have hi0 : i = 0 := by omega
    subst hi0
    simp [chunkLoop_single msgs start h1 h2]
  · intro start h1 h2 ih
    intro i hi
    simp only [chunkLoop_cons msgs start h1 h2, List.length_cons] at hi
    simp only [chunkLoop_cons msgs start h1 h2]
    match i with
    | 0 => simp
    | j + 1 =>
      simp only [List.getElem_cons_succ]
      rw [ih j (by omega)]
      have he : start + (CHUNK_SIZE - CHUNK_OVERLAP) + (CHUNK_SIZE - CHUNK_OVERLAP) * j =
          start + (CHUNK_SIZE - CHUNK_OVERLAP) * (j + 1) := by
        simp only [CHUNK_SIZE, CHUNK_OVERLAP]
        omega
      rw [he]
  · intro start h1
    intro i hi
    simp [chunkLoop_stop msgs start h1] at hi

theorem mem_take_drop_of_getElem (msgs : List CleanedMessage) (s j : Nat)
    (hj : j < msgs.length) (hsj : s ≤ j) (hlt : j < s + CHUNK_SIZE) :
    msgs[j] ∈ (msgs.drop s).take CHUNK_SIZE := by
  have hlen : j - s < ((msgs.drop s).take CHUNK_SIZE).length := by
    simp only [List.length_take, List.length_drop]
    omega
  have he : ((msgs.drop s).take CHUNK_SIZE)[j - s] = msgs[j] := by
    rw [List.getElem_take, List.getElem_drop]
    congr 1
    omega
  exact he ▸ List.getElem_mem hlen

theorem chunkLoop_cover (msgs : List CleanedMessage) (start : Nat) :
    ∀ j, start ≤ j → ∀ hj : j < msgs.length,
      ∃ c ∈ chunkLoop msgs start, msgs[j] ∈ c := by
  refine chunkLoop.induct msgs
    (fun start => ∀ j, start ≤ j → ∀ hj : j < msgs.length,
      ∃ c ∈ chunkLoop msgs start, msgs[j] ∈ c)
    ?_ ?_ ?_ start
  · intro start h1 h2
    intro j hsj hj
    rw [chunkLoop_single msgs start h1 h2]
    exact ⟨(msgs.drop start).take CHUNK_SIZE, by simp,
      mem_take_drop_of_getElem msgs start j hj hsj (by omega)⟩
  · intro start h1 h2 ih
    intro j hsj hj
    rw [chunkLoop_cons msgs start h1 h2]
    by_cases hc : j < start + CHUNK_SIZE
    · exact ⟨(msgs.drop start).take CHUNK_SIZE, by simp,
        mem_take_drop_of_getElem msgs start j hj hsj hc⟩
    · obtain ⟨c, hcm, hmc⟩ := ih j (by simp only [CHUNK_SIZE, CHUNK_OVERLAP] at *; omega) hj
      exact ⟨c, by simp [hcm], hmc⟩
  · intro start h1
    intro j hsj hj
    omega

theorem make_chunks_small (msgs : List CleanedMessage) (hne : msgs ≠ [])
    (hle : msgs.length ≤ CHUNK_SIZE) : make_chunks msgs = [msgs] := by
  cases msgs with
  | nil => exact absurd rfl hne
  | cons a l =>
    unfold make_chunks
    rw [if_neg (by simp), if_pos hle]

theorem make_chunks_big (msgs : List CleanedMessage)
    (hgt : ¬msgs.length ≤ CHUNK_SIZE) : make_chunks msgs = chunkLoop msgs 0 := by
  cases msgs with
  | nil => simp [CHUNK_SIZE] at hgt
  | cons a l =>
    unfold make_chunks
    rw [if_neg (by simp), if_neg hgt]

/-- C5 (amended): for a non-empty parsed message list, a single chunk is
emitted when the count is at most `CHUNK_SIZE`; in general chunk `i` is the
window of `CHUNK_SIZE` messages starting at `(CHUNK_SIZE - CHUNK_OVERLAP) * i`
(so consecutive windows advance by 45, the final window clipped to the true
end); every message appears in at least one chunk; and any 120-message list
yields exactly the windows `[0,50)`, `[45,95)`, `[90,120)`. For the empty
message list the code emits no chunk at all (see the counterexample), which
is the one correction to the claim. -/
theorem claim_C5_chunking (msgs : List CleanedMessage) (hne : msgs ≠ []) :
    (msgs.length ≤ CHUNK_SIZE → make_chunks msgs = [msgs]) ∧
    (∀ i (hi : i < (make_chunks msgs).length),
      (make_chunks msgs)[i] =
        (msgs.drop ((CHUNK_SIZE - CHUNK_OVERLAP) * i)).take CHUNK_SIZE) ∧
    (∀ m ∈ msgs, ∃ c ∈ make_chunks msgs, m ∈ c) ∧
    (∀ msgs120 : List CleanedMessage, msgs120.length = 120 →
      make_chunks msgs120 = [msgs120.take 50, (msgs120.drop 45).take 50, msgs120.drop 90]) := by
  refine ⟨make_chunks_small msgs hne, ?_, ?_, ?_⟩
  · intro i hi
    by_cases hle : msgs.length ≤ CHUNK_SIZE
    · simp only [make_chunks_small msgs hne hle, List.length_cons, List.length_nil] at hi
      have hi0 : i = 0 := by omega
      subst hi0
      simp only [make_chunks_small msgs hne hle, List.getElem_cons_zero, Nat.mul_zero,
        List.drop_zero]
      exact (List.take_of_length_le hle).symm
    · simp only [make_chunks_big msgs hle] at hi ⊢
      have := chunkLoop_getElem msgs 0 i hi
      simpa using this
  · intro m hm
    obtain ⟨j, hj, he⟩ := List.mem_iff_getElem.mp hm
    by_cases hle : msgs.length ≤ CHUNK_SIZE
    · exact ⟨msgs, by simp [make_chunks_small msgs hne hle], hm⟩
    · have hcov := chunkLoop_cover msgs 0 j (Nat.zero_le j) hj
      rw [he] at hcov
      rw [make_chunks_big msgs hle]
      exact hcov
  · intro ms h120
    have hgt : ¬ms.length ≤ CHUNK_SIZE := by simp only [h120, CHUNK_SIZE]; omega
    rw [make_chunks_big ms hgt]
    have hc0 : ¬ms.length ≤ 0 + CHUNK_SIZE := by simp only [CHUNK_SIZE]; omega
    have hc45 : ¬ms.length ≤ 45 + CHUNK_SIZE := by simp only [CHUNK_SIZE]; omega
    have hc90 : ms.length ≤ 90 + CHUNK_SIZE := by simp only [CHUNK_SIZE]; omega
    rw [chunkLoop_cons ms 0 (by omega) hc0]
    have e1 : 0 + (CHUNK_SIZE - CHUNK_OVERLAP) = 45 := by simp [CHUNK_SIZE, CHUNK_OVERLAP]
    rw [e1, chunkLoop_cons ms 45 (by omega) hc45]
    have e2 : 45 + (CHUNK_SIZE - CHUNK_OVERLAP) = 90 := by simp [CHUNK_SIZE, CHUNK_OVERLAP]
    rw [e2, chunkLoop_single ms 90 (by omega) hc90]
    have e3 : (ms.drop 90).take CHUNK_SIZE = ms.drop 90 :=
      List.take_of_length_le (by simp only [List.length_drop, CHUNK_SIZE, h120]; omega)
    rw [e3, List.drop_zero]
    simp only [CHUNK_SIZE]

/-- Witness for C5: the amended theorem applied to a concrete one-message
list. -/
theorem claim_C5_chunking_witness :
    make_chunks [{ id := 0, sender := "a", message := "m" }] =
      [[{ id := 0, sender := "a", message := "m" }]] ∧
    ∃ c ∈ make_chunks [{ id := 0, sender := "a", message := "m" }],
      ({ id := 0, sender := "a", message := "m" } : CleanedMessage) ∈ c := by
  have h := claim_C5_chunking [{ id := 0, sender := "a", message := "m" }] (by decide)
  exact ⟨h.1 (by decide), h.2.2.1 _ (by decide)⟩

/-- Counterexample for C5 as stated: the empty message list has length at
most `CHUNK_SIZE`, yet the code emits no chunk rather than exactly one. -/
theorem claim_C5_counterexample :
    ([] : List CleanedMessage).length ≤ CHUNK_SIZE ∧
    make_chunks ([] : List CleanedMessage) = [] ∧
    (make_chunks ([] : List CleanedMessage)).length ≠ 1 := by
  refine ⟨by decide, ?_, ?_⟩ <;> simp [make_chunks]

/-! ## C7 — Service deduplication -/

theorem dedup_services_go_sublist (l : List ExtractedService) :
    ∀ seen, List.Sublist (dedup_services_go l seen) l := by
  induction l with
  | nil => intro seen; simp [dedup_services_go]
  | cons s rest ih =>
    intro seen
    simp only [dedup_services_go]
    split
    · exact (ih seen).cons s
    · exact (ih _).cons₂ s

theorem seenAfter_cons (s : ExtractedService) (l : List ExtractedService)
    (seen : List String) :
    seenAfter (s :: l) seen =
      seenAfter l (if service_key s ∈ seen then seen else service_key s :: seen) := rfl

theorem mem_seenAfter (l : List ExtractedService) :
    ∀ seen k, k ∈ seenAfter l seen ↔ k ∈ seen ∨ k ∈ l.map service_key := by
  induction l with
  | nil => intro seen k; simp [seenAfter]
  | cons s rest ih =>
    intro seen k
    rw [seenAfter_cons, ih]
    by_cases h : service_key s ∈ seen
    · simp only [if_pos h, List.map_cons, List.mem_cons]
      constructor
      · rintro (hk | hk)
        · exact Or.inl hk
        · exact Or.inr (Or.inr hk)
      · rintro (hk | rfl | hk)
        · exact Or.inl hk
        · exact Or.inl h
        · exact Or.inr hk
    · simp only [if_neg h, List.map_cons, List.mem_cons]
      tauto

theorem dedup_services_go_append (l1 : List ExtractedService) :
    ∀ l2 seen, dedup_services_go (l1 ++ l2) seen =
      dedup_services_go l1 seen ++ dedup_services_go l2 (seenAfter l1 seen) := by
  induction l1 with
  | nil => intro l2 seen; simp [dedup_services_go, seenAfter]
  | cons s rest ih =>
    intro l2 seen
    simp only [List.cons_append, dedup_services_go, seenAfter_cons]
    by_cases h : service_key s ∈ seen
    · simp only [if_pos h]
      exact ih l2 seen
    · simp only [if_neg h, List.cons_append, List.append_eq]
      rw [ih l2 (service_key s :: seen)]

theorem dedup_services_go_eq_nil (l : List ExtractedService) :
    ∀ seen, (∀ s ∈ l, service_key s ∈ seen) → dedup_services_go l seen = [] := by
  induction l with
  | nil => intro seen _; simp [dedup_services_go]
  | cons s rest ih =>
    intro seen h
    simp only [dedup_services_go, if_pos (h s (by simp))]
    exact ih seen (fun t ht => h t (by simp [ht]))

theorem dedup_services_go_keys_nodup (l : List ExtractedService) :
    ∀ seen, ((dedup_services_go l seen).map service_key).Nodup ∧
      ∀ k ∈ (dedup_services_go l seen).map service_key, k ∉ seen := by
  induction l with
  | nil => intro seen; simp [dedup_services_go]
  | cons s rest ih =>
    intro seen
    simp only [dedup_services_go]
    by_cases h : service_key s ∈ seen
    · simpa [h] using ih seen
    · simp only [if_neg h, List.map_cons]
      obtain ⟨hnd, hns⟩ := ih (service_key s :: seen)
      refine ⟨List.nodup_cons.mpr ⟨fun hmem => (hns _ hmem) (by simp), hnd⟩, ?_⟩
      intro k hk
      rcases List.mem_cons.mp hk with rfl | hk2
      · exact h
      · intro hkseen
        exact (hns k hk2) (by simp [hkseen])

theorem dedup_services_go_key_complete (l : List ExtractedService) :
    ∀ seen s, s ∈ l → service_key s ∉ seen →
      service_key s ∈ (dedup_services_go l seen).map service_key := by
  induction l with
  | nil => intro seen s hs; simp at hs
  | cons t rest ih =>
    intro seen s hs hns
    rcases List.mem_cons.mp hs with rfl | hs2
    · by_cases h : service_key s ∈ seen
      · exact absurd h hns
      · simp [dedup_services_go, h]
    · by_cases h : service_key t ∈ seen
      · simp only [dedup_services_go, if_pos h]
        exact ih seen s hs2 hns
      · simp only [dedup_services_go, if_neg h, List.map_cons]
        by_cases hk : service_key s = service_key t
        · simp [hk]
        · have := ih (service_key t :: seen) s hs2 (by simp [hns, hk])
          simp [this]

theorem dedup_services_go_first (l1 : List ExtractedService) :
    ∀ s l2 seen, (∀ t ∈ l1, service_key t ≠ service_key s) → service_key s ∉ seen →
      s ∈ dedup_services_go (l1 ++ s :: l2) seen := by
  induction l1 with
  | nil =>
    intro s l2 seen _ hns
    simp [dedup_services_go, hns]
  | cons t rest ih =>
    intro s l2 seen hne hns
    simp only [List.cons_append, dedup_services_go]
    by_cases h : service_key t ∈ seen
    · simp only [if_pos h]
      exact ih s l2 seen (fun u hu => hne u (by simp [hu])) hns
    · simp only [if_neg h]
      have hs2 : service_key s ∉ service_key t :: seen := by
        simp only [List.mem_cons]
        push_neg
        exact ⟨fun he => (hne t (by simp)) he.symm, hns⟩
      exact List.mem_cons.mpr
        (Or.inr (ih s l2 _ (fun u hu => hne u (by simp [hu])) hs2))

theorem dedup_services_go_self_append (l : List ExtractedService) :
    dedup_services_go (l ++ l) [] = dedup_services_go l [] := by
  rw [dedup_services_go_append]
  have h0 : dedup_services_go l (seenAfter l []) = [] :=
    dedup_services_go_eq_nil l _
      (fun s hs => (mem_seenAfter l [] _).mpr (Or.inr (List.mem_map_of_mem _ hs)))
  simp [h0]

/-- C7 (confirmed): the merged service list is an order-preserving sublist of
the concatenation of all chunk services (chunk-index order); its
`service_key`s — the composite of type, contact name, and the first 50
characters of the description — are pairwise distinct; every input service's
key survives; the first occurrence of each key is the one kept; and merging
the same chunk list twice yields exactly the same output (no duplicate
growth). -/
theorem claim_C7_service_dedup :
    (∀ crs : List IntentAnalysis,
      List.Sublist (merge_services crs) (crs.flatMap (·.services))) ∧
    (∀ crs : List IntentAnalysis, ((merge_services crs).map service_key).Nodup) ∧
    (∀ (crs : List IntentAnalysis) (s : ExtractedService), s ∈ crs.flatMap (·.services) →
      service_key s ∈ (merge_services crs).map service_key) ∧
    (∀ (crs : List IntentAnalysis) (l1 l2 : List ExtractedService) (s : ExtractedService),
      crs.flatMap (·.services) = l1 ++ s :: l2 →
      (∀ t ∈ l1, service_key t ≠ service_key s) → s ∈ merge_services crs) ∧
    (∀ crs : List IntentAnalysis, merge_services (crs ++ crs) = merge_services crs) := by
  refine ⟨?_, ?_, ?_, ?_, ?_⟩
  · intro crs
    exact dedup_services_go_sublist _ []
  · intro crs
    exact (dedup_services_go_keys_nodup _ []).1
  · intro crs s hs
    exact dedup_services_go_key_complete _ [] s hs (by simp)
  · intro crs l1 l2 s he hne
    unfold merge_services
    rw [he]
    exact dedup_services_go_first l1 s l2 [] hne (by simp)
  · intro crs
    unfold merge_services
    rw [List.flatMap_append]
    exact dedup_services_go_self_append _

/-- Witness for C7: the completeness and first-occurrence conjuncts applied
to a concrete two-chunk input in which the first service reappears in the
second chunk. -/
theorem claim_C7_service_dedup_witness :
    service_key { type := "offer", description := "dA", contact_name := "A" } ∈
      (merge_services
        [{ services := [{ type := "offer", description := "dA", contact_name := "A" },
                        { type := "offer", description := "dB", contact_name := "B" }] },
         { services := [{ type := "offer", description := "dA", contact_name := "A" }] }]).map
        service_key ∧
    ({ type := "offer", description := "dA", contact_name := "A" } : ExtractedService) ∈
      merge_services
        [{ services := [{ type := "offer", description := "dA", contact_name := "A" },
                        { type := "offer", description := "dB", contact_name := "B" }] },
         { services := [{ type := "offer", description := "dA", contact_name := "A" }] }] := by
  constructor
  · exact claim_C7_service_dedup.2.2.1 _ _ (by decide)
  · exact claim_C7_service_dedup.2.2.2.1 _ []
      [{ type := "offer", description := "dB", contact_name := "B" },
       { type := "offer", description := "dA", contact_name := "A" }] _ (by decide)
      (by decide)

/-! ## C8 — Profile merge -/

theorem toFinset_dedup_eq (l : List String) : l.dedup.toFinset = l.toFinset := by
  ext a
  simp [List.mem_toFinset, List.mem_dedup]

theorem pyListSet_toFinset (l1 l2 : List String) :
    (pyListSet (l1 ++ l2)).toFinset = l1.toFinset ∪ l2.toFinset := by
  rw [pyListSet, toFinset_dedup_eq, List.toFinset_append]

theorem firstTruthy_eq_firstNonEmpty (a b : Option String) :
    firstTruthy a b = firstNonEmpty a b := by
  unfold firstTruthy firstNonEmpty
  by_cases h1 : pyTruthyStr a <;> by_cases h2 : pyTruthyStr b <;> simp [h1, h2]

/-- C8 (confirmed): merging two fragments for the same name unions the
set-valued fields (communities, asset classes, role tags) — hence merging
A then B and B then A give the same sets — and each scalar text field
(hot_plate, i_can_help_with, help_me_with, message_to_world) keeps the first
non-empty value seen. -/
theorem claim_C8_profile_merge (a b : ExtractedProfile) :
    ((merge_profile a b).communities.toFinset =
        a.communities.toFinset ∪ b.communities.toFinset ∧
      (merge_profile a b).asset_classes.toFinset =
        a.asset_classes.toFinset ∪ b.asset_classes.toFinset ∧
      (merge_profile a b).role_tags.toFinset =
        a.role_tags.toFinset ∪ b.role_tags.toFinset) ∧
    ((merge_profile a b).communities.toFinset = (merge_profile b a).communities.toFinset ∧
      (merge_profile a b).asset_classes.toFinset = (merge_profile b a).asset_classes.toFinset ∧
      (merge_profile a b).role_tags.toFinset = (merge_profile b a).role_tags.toFinset) ∧
    ((merge_profile a b).hot_plate = firstNonEmpty a.hot_plate b.hot_plate ∧
      (merge_profile a b).i_can_help_with =
        firstNonEmpty a.i_can_help_with b.i_can_help_with ∧
      (merge_profile a b).help_me_with = firstNonEmpty a.help_me_with b.help_me_with ∧
      (merge_profile a b).message_to_world =
        firstNonEmpty a.message_to_world b.message_to_world) := by
  refine ⟨⟨?_, ?_, ?_⟩, ⟨?_, ?_, ?_⟩, ?_, ?_, ?_, ?_⟩
  · exact pyListSet_toFinset _ _
  · exact pyListSet_toFinset _ _
  · exact pyListSet_toFinset _ _
  · rw [show (merge_profile a b).communities = pyListSet (a.communities ++ b.communities)
        from rfl,
      show (merge_profile b a).communities = pyListSet (b.communities ++ a.communities)
        from rfl,
      pyListSet_toFinset, pyListSet_toFinset, Finset.union_comm]
  · rw [show (merge_profile a b).asset_classes = pyListSet (a.asset_classes ++ b.asset_classes)
        from rfl,
      show (merge_profile b a).asset_classes = pyListSet (b.asset_classes ++ a.asset_classes)
        from rfl,
      pyListSet_toFinset, pyListSet_toFinset, Finset.union_comm]
  · rw [show (merge_profile a b).role_tags = pyListSet (a.role_tags ++ b.role_tags)
        from rfl,
      show (merge_profile b a).role_tags = pyListSet (b.role_tags ++ a.role_tags)
        from rfl,
      pyListSet_toFinset, pyListSet_toFinset, Finset.union_comm]
  · exact firstTruthy_eq_firstNonEmpty _ _
  · exact firstTruthy_eq_firstNonEmpty _ _
  · exact firstTruthy_eq_firstNonEmpty _ _
  · exact firstTruthy_eq_firstNonEmpty _ _

/-! ## C9 — Buy box merge -/

/-- C9 (amended): an incoming `buy_box` fills a missing one unconditionally;
an existing one is overwritten exactly when the incoming box has a truthy
(non-null, non-zero) `min_price` or a non-empty `assets` list — `max_price`
alone never triggers an overwrite — and is kept otherwise. -/
theorem claim_C9_buy_box (a b : ExtractedProfile) :
    (b.buy_box = none → (merge_profile a b).buy_box = a.buy_box) ∧
    (∀ nb, b.buy_box = some nb → a.buy_box = none →
      (merge_profile a b).buy_box = some nb) ∧
    (∀ nb ea, b.buy_box = some nb → a.buy_box = some ea →
      (merge_profile a b).buy_box =
        if pyTruthyNum nb.min_price || !nb.assets.isEmpty then some nb else some ea) := by
  refine ⟨?_, ?_, ?_⟩
  · intro h
    simp [merge_profile, merge_buy_box, h]
  · intro nb hb ha
    simp [merge_profile, merge_buy_box, hb, ha]
  · intro nb ea hb ha
    simp [merge_profile, merge_buy_box, hb, ha]

/-- Witness for C9: the amended theorem at a concrete pair where the
incoming box has only `max_price` set, so the existing box is kept. -/
theorem claim_C9_buy_box_witness :
    (merge_profile
        { name := "N", buy_box := some { min_price := some 1 } }
        { name := "N", buy_box := some { max_price := some 100 } }).buy_box =
      some { min_price := some 1 } := by
  have h := (claim_C9_buy_box
    { name := "N", buy_box := some { min_price := some 1 } }
    { name := "N", buy_box := some { max_price := some 100 } }).2.2
    { max_price := some 100 } { min_price := some 1 } rfl rfl
  rw [h]
  rfl

/-- Counterexample for C9 as stated: the incoming fragment carries a
non-null price (`max_price = 100`), yet the existing `buy_box` is kept, not
overwritten — the code checks only `min_price or assets`. -/
theorem claim_C9_counterexample :
    (merge_profile
        { name := "N", buy_box := some { min_price := some 1 } }
        { name := "N", buy_box := some { max_price := some 100 } }).buy_box ≠
      some { max_price := some 100 } ∧
    (merge_profile
        { name := "N", buy_box := some { min_price := some 1 } }
        { name := "N", buy_box := some { max_price := some 100 } }).buy_box =
      some { min_price := some 1 } ∧
    ({ max_price := some 100 } : BuyBox).max_price ≠ none ∧
    ({ min_price := some 1 } : BuyBox) ≠ { max_price := some 100 } := by
  have hm : (merge_profile
      { name := "N", buy_box := some { min_price := some 1 } }
      { name := "N", buy_box := some { max_price := some 100 } }).buy_box =
      some { min_price := some 1 } := rfl
  refine ⟨?_, hm, by simp, by simp⟩
  rw [hm]
  simp

/-! ## C4 — Validator fail-open and the exception path -/

theorem validate_batches_go_nil (resps : List (Except String (Option (List ValidationResult)))) :
    validate_batches_go resps [] = Except.ok [] := by
  rw [validate_batches_go.eq_def]
  simp

theorem validate_services_nil (resps : List (Except String (Option (List ValidationResult)))) :
    validate_services resps [] = [] := by
  unfold validate_services
  rw [validate_batches_go_nil]

theorem service_batches_nil : service_batches [] = [] := by
  rw [service_batches.eq_def]
  simp

theorem service_batches_cons (svcs : List ExtractedService) (h : svcs ≠ []) :
    service_batches svcs =
      svcs.take BATCH_SIZE :: service_batches (svcs.drop BATCH_SIZE) := by
  rw [service_batches.eq_def]
  cases svcs with
  | nil => exact absurd rfl h
  | cons a l => simp

theorem with_responses_length (resps : List (Option (List ValidationResult)))
    (bs : List (List ExtractedService)) :
    (with_responses resps bs).length = bs.length := by
  induction bs generalizing resps with
  | nil => simp [with_responses]
  | cons b bs ih => simp [with_responses, ih]

theorem getD_tail_eq (resps : List (Option (List ValidationResult))) (j : Nat) :
    resps.tail.getD j none = resps.getD (j + 1) none := by
  cases resps <;> simp [List.getD]

theorem getD_head_eq (resps : List (Option (List ValidationResult))) :
    resps.head?.getD none = resps.getD 0 none := by
  cases resps <;> simp [List.getD]

theorem with_responses_get (resps : List (Option (List ValidationResult)))
    (bs : List (List ExtractedService)) (i : Nat) (hi : i < bs.length) :
    (with_responses resps bs).get ⟨i, by rw [with_responses_length]; exact hi⟩ =
      (bs.get ⟨i, hi⟩, resps.getD i none) := by
  induction bs generalizing resps i with
  | nil => simp at hi
  | cons b bs ih =>
    cases i with
    | zero => simp [with_responses, getD_head_eq]
    | succ j =>
      have hj : j < bs.length := by simpa using hi
      have := ih resps.tail j hj
      simp only [with_responses, List.get_cons_succ]
      rw [this, getD_tail_eq]

theorem map_ok_head (resps : List (Option (List ValidationResult))) :
    (resps.map Except.ok :
        List (Except String (Option (List ValidationResult)))).head?.getD (Except.ok none) =
      Except.ok (resps.head?.getD none) := by
  cases resps <;> simp

theorem map_ok_tail (resps : List (Option (List ValidationResult))) :
    (resps.map Except.ok :
        List (Except String (Option (List ValidationResult)))).tail =
      resps.tail.map Except.ok := by
  cases resps <;> simp

/-- With every batch call succeeding, the loop computes exactly the
concatenation of the per-batch keeps. -/
theorem validate_batches_go_ok :
    ∀ (svcs : List ExtractedService) (resps : List (Option (List ValidationResult))),
      validate_batches_go (resps.map Except.ok) svcs =
        Except.ok ((with_responses resps (service_batches svcs)).flatMap
          (fun p => keep_batch p.2 p.1)) := by
  intro svcs
  refine service_batches.induct
    (fun svcs => ∀ resps : List (Option (List ValidationResult)),
      validate_batches_go (resps.map Except.ok) svcs =
        Except.ok ((with_responses resps (service_batches svcs)).flatMap
          (fun p => keep_batch p.2 p.1)))
    ?_ ?_ svcs
  · intro svcs h resps
    have hnil : svcs = [] := by
      cases svcs with
      | nil => rfl
      | cons a l => simp at h
    subst hnil
    rw [validate_batches_go_nil, service_batches_nil]
    simp [with_responses]
  · intro svcs h ih resps
    have hne : ¬svcs.isEmpty := h
    rw [validate_batches_go.eq_def]
    simp only [hne, Bool.false_eq_true, if_false, map_ok_head, map_ok_tail,
      ih resps.tail]
    rw [service_batches_cons svcs (by cases svcs <;> simp_all)]
    simp [with_responses]

theorem validate_services_eq_batches
    (resps : List (Option (List ValidationResult))) (svcs : List ExtractedService) :
    validate_services (resps.map Except.ok) svcs =
      (with_responses resps (service_batches svcs)).flatMap
        (fun p => keep_batch p.2 p.1) := by
  unfold validate_services
  rw [validate_batches_go_ok]

/-- If the batch calls before position `pre.length` all succeed and the call
for that batch raises, the whole loop aborts with that exception. -/
theorem validate_batches_go_error :
    ∀ (pre : List (Option (List ValidationResult))) (e : String)
      (rest : List (Except String (Option (List ValidationResult))))
      (svcs : List ExtractedService),
      pre.length < (service_batches svcs).length →
      validate_batches_go (pre.map Except.ok ++ Except.error e :: rest) svcs =
        Except.error e := by
  intro pre
  induction pre with
  | nil =>
    intro e rest svcs hlen
    have hne : svcs.isEmpty = false := by
      cases svcs with
      | nil => rw [service_batches_nil] at hlen; simp at hlen
      | cons a l => rfl
    rw [validate_batches_go.eq_def]
    simp [hne]
  | cons o pre ih =>
    intro e rest svcs hlen
    have hne : svcs.isEmpty = false := by
      cases svcs with
      | nil => rw [service_batches_nil] at hlen; simp at hlen
      | cons a l => rfl
    have hne2 : svcs ≠ [] := by
      cases svcs with
      | nil => simp at hne
      | cons a l => simp
    have hlen2 : pre.length < (service_batches (svcs.drop BATCH_SIZE)).length := by
      rw [service_batches_cons svcs hne2] at hlen
      simpa using hlen
    rw [validate_batches_go.eq_def]
    simp only [hne, Bool.false_eq_true, if_false, List.map_cons, List.cons_append,
      List.head?_cons, Option.getD_some, List.tail_cons]
    rw [ih e rest (svcs.drop BATCH_SIZE) hlen2]

/-- If any batch call raises, `validate_services` returns the original,
unfiltered list. -/
theorem validate_services_exception
    (pre : List (Option (List ValidationResult))) (e : String)
    (rest : List (Except String (Option (List ValidationResult))))
    (svcs : List ExtractedService)
    (hlen : pre.length < (service_batches svcs).length) :
    validate_services (pre.map Except.ok ++ Except.error e :: rest) svcs = svcs := by
  unfold validate_services
  rw [validate_batches_go_error pre e rest svcs hlen]

theorem validate_services_mismatch_keeps
    (resps : List (Option (List ValidationResult))) (svcs : List ExtractedService)
    (i : Nat) (hi : i < (service_batches svcs).length)
    (hmis : ∀ rs, resps.getD i none = some rs →
      rs.length ≠ ((service_batches svcs).get ⟨i, hi⟩).length) :
    ∀ s ∈ (service_batches svcs).get ⟨i, hi⟩,
      s ∈ validate_services (resps.map Except.ok) svcs := by
  intro s hs
  rw [validate_services_eq_batches, List.mem_flatMap]
  refine ⟨((service_batches svcs).get ⟨i, hi⟩, resps.getD i none), ?_, ?_⟩
  · rw [← with_responses_get resps _ i hi]
    exact List.get_mem _ _ _
  · cases hr : resps.getD i none with
    | none => simpa [keep_batch] using hs
    | some rs =>
      have hne := hmis rs hr
      simp only [keep_batch]
      rw [if_neg (by simpa using hne)]
      exact hs

/-- C4 (amended): when no batch call raises, the validator output is exactly
the concatenation, over the `BATCH_SIZE` batches in order, of the per-batch
keep logic — a falsy or length-mismatched response keeps its whole batch
(fail-open), a matched-length response keeps exactly the services whose
result has `is_valid`, in input order — and the final pipeline record's
`services` field is exactly the validator output. But when the call for some
batch raises (after retry exhaustion), the `except` handler returns the
original unfiltered list, so services rejected by earlier matched batches
reappear downstream (see the counterexample). -/
theorem claim_C4_validator :
    (∀ (resps : List (Option (List ValidationResult))) (svcs : List ExtractedService),
      validate_services (resps.map Except.ok) svcs =
        (with_responses resps (service_batches svcs)).flatMap
          (fun p => keep_batch p.2 p.1)) ∧
    (∀ batch : List ExtractedService, keep_batch none batch = batch) ∧
    (∀ (batch : List ExtractedService) (rs : List ValidationResult),
      rs.length ≠ batch.length → keep_batch (some rs) batch = batch) ∧
    (∀ (batch : List ExtractedService) (rs : List ValidationResult),
      rs.length = batch.length →
      keep_batch (some rs) batch =
        (batch.zip rs).filterMap (fun p => if p.2.is_valid then some p.1 else none)) ∧
    (∀ (resps : List (Option (List ValidationResult))) (svcs : List ExtractedService)
      (i : Nat) (hi : i < (service_batches svcs).length),
      (∀ rs, resps.getD i none = some rs →
        rs.length ≠ ((service_batches svcs).get ⟨i, hi⟩).length) →
      ∀ s ∈ (service_batches svcs).get ⟨i, hi⟩,
        s ∈ validate_services (resps.map Except.ok) svcs) ∧
    (∀ (pre : List (Option (List ValidationResult))) (e : String)
      (rest : List (Except String (Option (List ValidationResult))))
      (svcs : List ExtractedService),
      pre.length < (service_batches svcs).length →
      validate_services (pre.map Except.ok ++ Except.error e :: rest) svcs = svcs) ∧
    (∀ (raw : List CleanedMessage) (crs : List IntentAnalysis) (summary : MeetingSummary)
      (cm : List (String × ContactInfo)) (pm : List (String × ExtractedProfile))
      (validated : List ExtractedService),
      (build_final_data raw crs summary cm pm validated).services = validated) := by
  refine ⟨validate_services_eq_batches, ?_, ?_, ?_, validate_services_mismatch_keeps,
    validate_services_exception, ?_⟩
  · intro batch
    rfl
  · intro batch rs h
    simp [keep_batch, h]
  · intro batch rs h
    simp [keep_batch, h]
  · intro raw crs summary cm pm validated
    rfl

/-- Witness for C4: a one-batch run whose response array is too short (1
result for 2 services); the rejected-looking service is still kept
(fail-open). -/
theorem claim_C4_validator_witness :
    ({ type := "offer", description := "d1", contact_name := "A" } : ExtractedService) ∈
      validate_services
        (([some [{ is_valid := false, reason := "r" }]] :
          List (Option (List ValidationResult))).map Except.ok)
        [{ type := "offer", description := "d1", contact_name := "A" },
         { type := "offer", description := "d2", contact_name := "B" }] := by
  rw [claim_C4_validator.1, service_batches_cons _ (by decide)]
  rw [show List.drop BATCH_SIZE
      [({ type := "offer", description := "d1", contact_name := "A" } : ExtractedService),
       { type := "offer", description := "d2", contact_name := "B" }] = [] from by decide]
  rw [service_batches_nil]
  decide

/-- Counterexample for C4 as stated: the first batch's response has matching
length and rejects the service "bad", which hence is absent from that
batch's keep; but the second batch's call raises, the handler returns the
original list, and the rejected service appears in the validator output (and
so downstream). -/
theorem claim_C4_counterexample :
    reject_first_results.length = (resurrect_services.take BATCH_SIZE).length ∧
    ({ type := "offer", description := "bad", contact_name := "A" } : ExtractedService) ∈
      resurrect_services.take BATCH_SIZE ∧
    ({ type := "offer", description := "bad", contact_name := "A" } : ExtractedService) ∉
      keep_batch (some reject_first_results) (resurrect_services.take BATCH_SIZE) ∧
    validate_services [Except.ok (some reject_first_results), Except.error "boom"]
        resurrect_services = resurrect_services ∧
    ({ type := "offer", description := "bad", contact_name := "A" } : ExtractedService) ∈
      validate_services [Except.ok (some reject_first_results), Except.error "boom"]
        resurrect_services := by
  have hval : validate_services [Except.ok (some reject_first_results), Except.error "boom"]
      resurrect_services = resurrect_services := by
    have hlen : ([some reject_first_results] :
        List (Option (List ValidationResult))).length <
        (service_batches resurrect_services).length := by
      rw [service_batches_cons _ (by decide)]
      rw [show List.drop BATCH_SIZE resurrect_services =
          [{ type := "offer", description := "ok", contact_name := "A" }] from by decide]
      rw [service_batches_cons _ (by decide)]
      simp
    have h := validate_services_exception [some reject_first_results] "boom" []
      resurrect_services hlen
    exact h
  refine ⟨by decide, by decide, by decide, hval, ?_⟩
  rw [hval]
  decide

/-! ## C3 — Noise set -/

/-- C3 (amended): the final noise set is exactly the union of the
`noise_message_ids` of the chunk results — the code applies no deterministic
post-filter — and the cleaned transcript is exactly the original message
list minus that set, in original order. -/
theorem claim_C3_noise_union :
    (∀ (crs : List IntentAnalysis) (i : Nat),
      i ∈ all_noise_ids crs ↔ ∃ r ∈ crs, i ∈ r.noise_message_ids) ∧
    (∀ (raw : List CleanedMessage) (crs : List IntentAnalysis) (m : CleanedMessage),
      m ∈ final_transcript raw crs ↔ m ∈ raw ∧ m.id ∉ all_noise_ids crs) ∧
    (∀ (raw : List CleanedMessage) (crs : List IntentAnalysis),
      List.Sublist (final_transcript raw crs) raw) := by
  refine ⟨?_, ?_, ?_⟩
  · intro crs i
    simp [all_noise_ids, List.mem_flatMap]
  · intro raw crs m
    simp [final_transcript, List.mem_filter]
  · intro raw crs
    exact List.filter_sublist _

/-- Counterexample for C3 as stated: a message consisting only of "yes" that
no chunk flagged is not in the noise set, and it survives into the cleaned
transcript of the final data — the deterministic short-utterance post-filter
described by the specification does not exist in this code path. -/
theorem claim_C3_counterexample :
    (0 : Nat) ∉
      all_noise_ids [{ services := [], profiles := [], noise_message_ids := [] }] ∧
    ({ id := 0, sender := "Isaac", message := "yes" } : CleanedMessage) ∈
      final_transcript [{ id := 0, sender := "Isaac", message := "yes" }]
        [{ services := [], profiles := [], noise_message_ids := [] }] ∧
    (build_final_data [{ id := 0, sender := "Isaac", message := "yes" }]
        [{ services := [], profiles := [], noise_message_ids := [] }]
        { summary := "s" } [] [] []).cleaned_transcript =
      [{ id := 0, sender := "Isaac", message := "yes" }] := by
  decide

/-! ## C1 — Service owner names vs. final contacts -/

theorem countP_single_target (n : String) (q : String → Bool)
    (hq : ∀ a, q a = true → a = n) :
    ∀ l : List String, l.Nodup →
      l.countP q = if q n = true ∧ n ∈ l then 1 else 0 := by
  intro l
  induction l with
  | nil => simp
  | cons a l ih =>
    intro hnd
    obtain ⟨hna, hndl⟩ := List.nodup_cons.mp hnd
    rw [List.countP_cons, ih hndl]
    by_cases hqa : q a = true
    · have ha : a = n := hq a hqa
      subst ha
      simp [hqa, hna]
    · by_cases han : n = a
      · subst han
        simp [hqa]
      · simp [hqa, han]

theorem all_names_nodup (cm : List (String × ContactInfo))
    (pm : List (String × ExtractedProfile)) : (all_names cm pm).Nodup :=
  List.nodup_dedup _

theorem build_final_data_contacts (raw_messages : List CleanedMessage)
    (chunk_results : List IntentAnalysis) (summary : MeetingSummary)
    (cm : List (String × ContactInfo)) (pm : List (String × ExtractedProfile))
    (validated : List ExtractedService) :
    (build_final_data raw_messages chunk_results summary cm pm validated).contacts =
      (all_names cm pm).filterMap (contact_of_name cm pm validated) := rfl

theorem contact_of_name_name (cm : List (String × ContactInfo))
    (pm : List (String × ExtractedProfile)) (validated : List ExtractedService)
    (a : String) (c : ExtractedContact) (hc : contact_of_name cm pm validated a = some c) :
    c.name = a := by
  unfold contact_of_name at hc
  by_cases hinc : name_included cm pm validated a
  · rw [if_pos hinc] at hc
    cases hc
    rfl
  · rw [if_neg hinc] at hc
    cases hc

theorem contact_q_target (cm : List (String × ContactInfo))
    (pm : List (String × ExtractedProfile)) (validated : List ExtractedService)
    (n : String) :
    ∀ a, ((contact_of_name cm pm validated a).map (fun c => c.name == n)).getD false = true →
      a = n := by
  intro a ha
  cases hc : contact_of_name cm pm validated a with
  | none =>
    rw [hc] at ha
    simp only [Option.map_none', Option.getD_none] at ha
    exact absurd ha (by simp)
  | some c =>
    rw [hc] at ha
    simp only [Option.map_some', Option.getD_some] at ha
    rw [contact_of_name_name cm pm validated a c hc] at ha
    exact eq_of_beq ha

theorem contact_countP_eq (cm : List (String × ContactInfo))
    (pm : List (String × ExtractedProfile)) (validated : List ExtractedService)
    (n : String) :
    ((all_names cm pm).filterMap (contact_of_name cm pm validated)).countP
        (fun c => c.name == n) =
      if (((contact_of_name cm pm validated n).map (fun c => c.name == n)).getD false = true ∧
          n ∈ all_names cm pm) then 1 else 0 := by
  rw [List.countP_filterMap]
  exact countP_single_target n _ (contact_q_target cm pm validated n) _
    (all_names_nodup cm pm)

/-- C1 (amended): in the final data each name yields at most one contact;
a validated service whose `contact_name` occurs among the parsed senders or
the AI profile names has exactly one matching contact; but a validated
service whose `contact_name` occurs in neither has no matching contact at
all — the pipeline result does not synthesize contacts for names that appear
only in service records (that synthesis happens later, in the database-save
step of `api/upload.py`). -/
theorem claim_C1_owner_contacts (raw_messages : List CleanedMessage)
    (chunk_results : List IntentAnalysis) (summary : MeetingSummary)
    (cm : List (String × ContactInfo)) (pm : List (String × ExtractedProfile))
    (validated : List ExtractedService) :
    (∀ n : String,
      (build_final_data raw_messages chunk_results summary cm pm validated).contacts.countP
        (fun c => c.name == n) ≤ 1) ∧
    (∀ svc ∈ validated, svc.contact_name ∈ all_names cm pm →
      (build_final_data raw_messages chunk_results summary cm pm validated).contacts.countP
        (fun c => c.name == svc.contact_name) = 1) ∧
    (∀ svc : ExtractedService, svc.contact_name ∉ all_names cm pm →
      (build_final_data raw_messages chunk_results summary cm pm validated).contacts.countP
        (fun c => c.name == svc.contact_name) = 0) := by
  refine ⟨?_, ?_, ?_⟩
  · intro n
    rw [build_final_data_contacts, contact_countP_eq]
    split
    · exact Nat.le_refl 1
    · exact Nat.zero_le 1
  · intro svc hsvc hmem
    rw [build_final_data_contacts, contact_countP_eq]
    have hinc : name_included cm pm validated svc.contact_name = true := by
      unfold name_included
      have hany : validated.any (fun s => s.contact_name == svc.contact_name) = true :=
        List.any_eq_true.mpr ⟨svc, hsvc, by simp⟩
      simp [hany]
    rw [if_pos]
    refine ⟨?_, hmem⟩
    unfold contact_of_name
    rw [if_pos hinc]
    simp only [Option.map_some', Option.getD_some]
    simp [build_contact]
  · intro svc hmem
    rw [build_final_data_contacts, contact_countP_eq]
    rw [if_neg]
    intro hcontra
    exact hmem hcontra.2

set_option maxRecDepth 40000

/-- Witness for C1: the amended theorem at a concrete input where the
service owner "Alice" is a parsed sender, yielding exactly one contact. -/
theorem claim_C1_owner_contacts_witness :
    (build_final_data [] [] { summary := "s" } [("Alice", {})] []
        [{ type := "offer", description := "d", contact_name := "Alice" }]).contacts.countP
      (fun c => c.name == "Alice") = 1 :=
  (claim_C1_owner_contacts [] [] { summary := "s" } [("Alice", {})] []
    [{ type := "offer", description := "d", contact_name := "Alice" }]).2.1
    { type := "offer", description := "d", contact_name := "Alice" } (by decide) (by decide)

/-- A complete concrete pipeline run: one parsed message from "Alice", one
chunk outcome attributing a service to the unknown name "Ghost", no
validator responses (fail-open). The final data keeps the Ghost service but
builds no contact at all. -/
theorem pipeline_ghost_run :
    run_extraction_pipeline aliceHeader [Except.ok ghostAnalysis] { summary := "s" } [] =
      { contacts := [], services := [ghostService], summary := { summary := "s" },
        cleaned_transcript := [aliceMsg], profiles := [] } := by
  have hcr : pipeline_chunk_results aliceHeader [Except.ok ghostAnalysis] = [ghostAnalysis] := by
    decide
  have hparse : parse_transcript_lines aliceHeader = [aliceMsg] := by decide
  have hfl : finalize_logic [ghostAnalysis] [aliceMsg] =
      ([ghostService], [("Alice", {})], []) := by decide
  have hv : validate_services [] [ghostService] = [ghostService] := by
    unfold validate_services
    rw [validate_batches_go.eq_def]
    simp only [List.isEmpty_cons, Bool.false_eq_true, if_false, List.head?_nil,
      Option.getD_none, List.tail_nil]
    rw [show List.drop BATCH_SIZE [ghostService] = [] from by decide, validate_batches_go_nil]
    rfl
  unfold run_extraction_pipeline
  rw [hcr, hparse, hfl]
  show build_final_data [aliceMsg] [ghostAnalysis] { summary := "s" } [("Alice", {})] []
      (validate_services [] [ghostService]) =
    { contacts := [], services := [ghostService], summary := { summary := "s" },
      cleaned_transcript := [aliceMsg], profiles := [] }
  rw [hv]
  decide

/-- Counterexample for C1 as stated: in this run the final services list
contains a service owned by "Ghost", yet the final contacts list contains no
contact with that name — no contact is synthesized for a name that appears
only in AI service output. -/
theorem claim_C1_counterexample :
    (run_extraction_pipeline aliceHeader [Except.ok ghostAnalysis]
        { summary := "s" } []).services.map (fun s => s.contact_name) = ["Ghost"] ∧
    (run_extraction_pipeline aliceHeader [Except.ok ghostAnalysis]
        { summary := "s" } []).contacts.countP (fun c => c.name == "Ghost") = 0 := by
  rw [pipeline_ghost_run]
  exact ⟨rfl, rfl⟩

/-! ## C2 — Timeout and error accumulation -/

/-- C2 (amended): without a timeout the caller receives exactly the pipeline
record (contacts, services, profiles, summary, cleaned transcript — the type
carries no partial flag and no errors list); when the global deadline
expires the caller receives `asyncio.TimeoutError` and never any data value;
and a failed chunk outcome is simply dropped, leaving no trace in the
gathered results. -/
theorem claim_C2_timeout_errors :
    (∀ transcript co s v, run_core_extraction false transcript co s v =
      Except.ok (run_extraction_pipeline transcript co s v)) ∧
    (∀ transcript co s v, run_core_extraction true transcript co s v =
      Except.error "asyncio.TimeoutError") ∧
    (∀ transcript co s v d, run_core_extraction true transcript co s v ≠ Except.ok d) ∧
    (∀ (e : String) (rest : List (Except String IntentAnalysis)),
      extraction_map_results (Except.error e :: rest) = extraction_map_results rest) := by
  refine ⟨fun _ _ _ _ => rfl, fun _ _ _ _ => rfl, ?_, ?_⟩
  · intro t co s v d h
    simp [run_core_extraction] at h
  · intro e rest
    simp [extraction_map_results]

/-- Witness for C2: the no-data-on-timeout conjunct at a concrete run. -/
theorem claim_C2_timeout_errors_witness :
    run_core_extraction true aliceHeader [Except.ok ghostAnalysis] { summary := "s" } [] ≠
      Except.ok (run_extraction_pipeline aliceHeader [Except.ok ghostAnalysis]
        { summary := "s" } []) :=
  claim_C2_timeout_errors.2.2.1 aliceHeader [Except.ok ghostAnalysis] { summary := "s" } [] _

/-- Counterexample for C2 as stated: the same run returns a record with one
service when it finishes in time, but on deadline expiry the caller gets
`asyncio.TimeoutError` carrying none of that computed data (no partial
result); and a run whose only chunk failed is indistinguishable from a run
whose chunk returned an empty analysis — no error is accumulated in the
returned value, which has no errors field. -/
theorem claim_C2_counterexample :
    (run_core_extraction true aliceHeader [Except.ok ghostAnalysis] { summary := "s" } [] =
      Except.error "asyncio.TimeoutError") ∧
    (run_core_extraction false aliceHeader [Except.ok ghostAnalysis] { summary := "s" } [] =
      Except.ok ({ contacts := [], services := [ghostService],
                   summary := { summary := "s" },
                   cleaned_transcript := [aliceMsg],
                   profiles := [] } : ExtractedMeetingData)) ∧
    [ghostService] ≠ ([] : List ExtractedService) ∧
    run_extraction_pipeline aliceHeader [Except.error "boom"] { summary := "s" } [] =
      run_extraction_pipeline aliceHeader [Except.ok {}] { summary := "s" } [] := by
  have hparse : parse_transcript_lines aliceHeader = [aliceMsg] := by decide
  have hveq : validate_services [] [] = [] := validate_services_nil []
  have hA : run_extraction_pipeline aliceHeader [Except.error "boom"] { summary := "s" } [] =
      { contacts := [], services := [], summary := { summary := "s" },
        cleaned_transcript := [aliceMsg], profiles := [] } := by
    have hcr : pipeline_chunk_results aliceHeader [Except.error "boom"] = [] := by decide
    have hfl : finalize_logic [] [aliceMsg] = ([], [("Alice", {})], []) := by decide
    unfold run_extraction_pipeline
    rw [hcr, hparse, hfl]
    show build_final_data [aliceMsg] [] { summary := "s" } [("Alice", {})] []
        (validate_services [] []) = _
    rw [hveq]
    decide
  have hB : run_extraction_pipeline aliceHeader [Except.ok {}] { summary := "s" } [] =
      { contacts := [], services := [], summary := { summary := "s" },
        cleaned_transcript := [aliceMsg], profiles := [] } := by
    have hcr : pipeline_chunk_results aliceHeader [Except.ok {}] = [{}] := by decide
    have hfl : finalize_logic [{}] [aliceMsg] = ([], [("Alice", {})], []) := by decide
    unfold run_extraction_pipeline
    rw [hcr, hparse, hfl]
    show build_final_data [aliceMsg] [{}] { summary := "s" } [("Alice", {})] []
        (validate_services [] []) = _
    rw [hveq]
    decide
  refine ⟨rfl, ?_, by decide, ?_⟩
  · show Except.ok (run_extraction_pipeline aliceHeader [Except.ok ghostAnalysis]
      { summary := "s" } []) = _
    rw [pipeline_ghost_run]
  · rw [hA, hB]

/-! ## C6 — Transcript parser -/

theorem parseGo_decompose :
    ∀ (lines : List String) (idx : Nat) (cur : Option CleanedMessage),
      parseGo lines idx cur =
        parseEmit lines idx cur ++ ((parseAdvance lines idx cur).2).toList := by
  intro lines
  induction lines with
  | nil => intro idx cur; simp [parseGo, parseEmit, parseAdvance]
  | cons line rest ih =>
    intro idx cur
    cases h : matchZoomHeader line with
    | some g => simp [parseGo, parseEmit, parseAdvance, h, ih]
    | none =>
      cases cur with
      | none => simp [parseGo, parseEmit, parseAdvance, h, ih]
      | some m =>
        by_cases hb : (pyStrip line).isEmpty
        · simp [parseGo, parseEmit, parseAdvance, h, hb, ih]
        · simp [parseGo, parseEmit, parseAdvance, h, hb, ih]

theorem parse_append :
    ∀ (xs ys : List String) (idx : Nat) (cur : Option CleanedMessage),
      parseAdvance (xs ++ ys) idx cur =
        parseAdvance ys (parseAdvance xs idx cur).1 (parseAdvance xs idx cur).2 ∧
      parseEmit (xs ++ ys) idx cur =
        parseEmit xs idx cur ++
          parseEmit ys (parseAdvance xs idx cur).1 (parseAdvance xs idx cur).2 := by
  intro xs
  induction xs with
  | nil => intro ys idx cur; simp [parseAdvance, parseEmit]
  | cons x xs ih =>
    intro ys idx cur
    cases h : matchZoomHeader x with
    | some g =>
      simp only [List.cons_append, parseAdvance, parseEmit, h, List.append_eq]
      exact ⟨(ih ys _ _).1, by rw [(ih ys _ _).2, List.append_assoc]⟩
    | none =>
      cases cur with
      | none => simpa [parseAdvance, parseEmit, h] using ih ys idx none
      | some m =>
        by_cases hb : (pyStrip x).isEmpty
        · simpa [parseAdvance, parseEmit, h, hb] using ih ys idx (some m)
        · simpa [parseAdvance, parseEmit, h, hb] using
            ih ys idx (some (appendBody m (pyStrip x)))

theorem headerCount_cons (l : String) (rest : List String) :
    headerCount (l :: rest) =
      (if (matchZoomHeader l).isSome then 1 else 0) + headerCount rest := by
  by_cases h : (matchZoomHeader l).isSome <;>
    simp [headerCount, List.filter_cons, h, Nat.add_comm]

theorem option_toList_map (cur : Option CleanedMessage) (f : CleanedMessage → Nat) :
    (cur.toList).map f = (cur.map f).toList := by
  cases cur <;> simp

theorem parseGo_map_id :
    ∀ (lines : List String) (idx : Nat) (cur : Option CleanedMessage),
      (parseGo lines idx cur).map (fun m => m.id) =
        (cur.map (fun m => m.id)).toList ++ List.range' idx (headerCount lines) := by
  intro lines
  induction lines with
  | nil => intro idx cur; simp [parseGo, headerCount, option_toList_map]
  | cons line rest ih =>
    intro idx cur
    cases h : matchZoomHeader line with
    | some g =>
      have hco : headerCount (line :: rest) = headerCount rest + 1 := by
        rw [headerCount_cons]
        simp [h, Nat.add_comm]
      have hr : List.range' idx (headerCount rest + 1) =
          idx :: List.range' (idx + 1) (headerCount rest) := rfl
      simp [parseGo, h, ih, hco, hr, mkMsg, option_toList_map]
    | none =>
      have hco : headerCount (line :: rest) = headerCount rest := by
        rw [headerCount_cons]
        simp [h]
      cases cur with
      | none => simp [parseGo, h, ih, hco]
      | some m =>
        by_cases hb : (pyStrip line).isEmpty
        · simp [parseGo, h, hb, ih, hco]
        · simp [parseGo, h, hb, ih, hco, appendBody]

theorem parseLines_length (lines : List String) :
    (parseLines lines).length = headerCount lines := by
  have h := congrArg List.length (parseGo_map_id lines 0 none)
  simpa [parseLines, List.length_range'] using h

theorem parseAdvance_fst :
    ∀ (lines : List String) (idx : Nat) (cur : Option CleanedMessage),
      (parseAdvance lines idx cur).1 = idx + headerCount lines := by
  intro lines
  induction lines with
  | nil => intro idx cur; simp [parseAdvance, headerCount]
  | cons line rest ih =>
    intro idx cur
    cases h : matchZoomHeader line with
    | some g =>
      have hco : headerCount (line :: rest) = headerCount rest + 1 := by
        rw [headerCount_cons]
        simp [h, Nat.add_comm]
      simp only [parseAdvance, h, ih, hco]
      omega
    | none =>
      have hco : headerCount (line :: rest) = headerCount rest := by
        rw [headerCount_cons]
        simp [h]
      cases cur with
      | none => simp [parseAdvance, h, ih, hco]
      | some m =>
        by_cases hb : (pyStrip line).isEmpty
        · simp [parseAdvance, h, hb, ih, hco]
        · simp [parseAdvance, h, hb, ih, hco]

theorem parseAdvance_some :
    ∀ (lines : List String) (idx : Nat) (m : CleanedMessage),
      ((parseAdvance lines idx (some m)).2).isSome := by
  intro lines
  induction lines with
  | nil => intro idx m; simp [parseAdvance]
  | cons line rest ih =>
    intro idx m
    cases h : matchZoomHeader line with
    | some g => simpa [parseAdvance, h] using ih (idx + 1) (mkMsg idx g)
    | none =>
      by_cases hb : (pyStrip line).isEmpty
      · simpa [parseAdvance, h, hb] using ih idx m
      · simpa [parseAdvance, h, hb] using ih idx (appendBody m (pyStrip line))

theorem parseEmit_none_of_advance_none :
    ∀ (lines : List String) (idx : Nat),
      (parseAdvance lines idx none).2 = none → parseEmit lines idx none = [] := by
  intro lines
  induction lines with
  | nil => intro idx _; simp [parseEmit]
  | cons line rest ih =>
    intro idx hadv
    cases h : matchZoomHeader line with
    | some g =>
      exfalso
      rw [show parseAdvance (line :: rest) idx none =
          parseAdvance rest (idx + 1) (some (mkMsg idx g)) from by simp [parseAdvance, h]]
        at hadv
      have := parseAdvance_some rest (idx + 1) (mkMsg idx g)
      rw [hadv] at this
      simp at this
    | none =>
      have hadv2 : (parseAdvance rest idx none).2 = none := by
        rw [show parseAdvance (line :: rest) idx none = parseAdvance rest idx none
          from by simp [parseAdvance, h]] at hadv
        exact hadv
      simp [parseEmit, h, ih idx hadv2]

/-- C6 (confirmed): the parser is a pure function (parsing twice gives the
same sequence — determinism is definitional in this embedding); ids are
sequential from 0 in output order; appending a header line to any input
flushes the open message and starts a new message carrying the next
sequential id (equal to the number of messages so far); appending a
non-header, non-blank line extends the body of the open (last) message,
space-joined; blank lines are skipped; and a non-header line with no open
message is dropped. `parse_transcript_lines` is the line loop applied to
`text.split('\n')`. -/
theorem claim_C6_transcript_parsing :
    (∀ t : String, parse_transcript_lines t = parse_transcript_lines t) ∧
    (∀ t : String, (parse_transcript_lines t).map (fun m => m.id) =
      List.range (parse_transcript_lines t).length) ∧
    (∀ (lines : List String) (l : String) (g : String × String × String),
      matchZoomHeader l = some g →
      parseLines (lines ++ [l]) =
        parseLines lines ++ [mkMsg (parseLines lines).length g]) ∧
    (∀ (lines : List String) (l : String) (ms : List CleanedMessage) (m : CleanedMessage),
      matchZoomHeader l = none → pyStrip l ≠ "" → parseLines lines = ms ++ [m] →
      parseLines (lines ++ [l]) = ms ++ [appendBody m (pyStrip l)]) ∧
    (∀ (lines : List String) (l : String),
      matchZoomHeader l = none → pyStrip l = "" →
      parseLines (lines ++ [l]) = parseLines lines) ∧
    (∀ (l : String) (lines : List String),
      matchZoomHeader l = none → parseLines (l :: lines) = parseLines lines) ∧
    (∀ t : String, parse_transcript_lines t = parseLines (splitLines t)) := by
  refine ⟨fun _ => rfl, ?_, ?_, ?_, ?_, ?_, fun _ => rfl⟩
  · intro t
    have hm := parseGo_map_id (splitLines t) 0 none
    have hl := parseLines_length (splitLines t)
    show (parseLines (splitLines t)).map (fun m => m.id) =
      List.range (parseLines (splitLines t)).length
    rw [hl]
    unfold parseLines
    rw [hm, List.range_eq_range']
    simp
  · intro lines l g hg
    have h1 : parseEmit [l] (parseAdvance lines 0 none).1 (parseAdvance lines 0 none).2 =
        ((parseAdvance lines 0 none).2).toList := by
      simp [parseEmit, hg]
    have h2 : parseAdvance [l] (parseAdvance lines 0 none).1 (parseAdvance lines 0 none).2 =
        ((parseAdvance lines 0 none).1 + 1,
          some (mkMsg (parseAdvance lines 0 none).1 g)) := by
      simp [parseAdvance, hg]
    have hlen : (parseLines lines).length = (parseAdvance lines 0 none).1 := by
      rw [parseAdvance_fst, parseLines_length]
      omega
    show parseGo (lines ++ [l]) 0 none = _
    rw [parseGo_decompose (lines ++ [l]), (parse_append lines [l] 0 none).2,
      (parse_append lines [l] 0 none).1, h1, h2]
    show parseEmit lines 0 none ++ ((parseAdvance lines 0 none).2).toList ++
        [mkMsg (parseAdvance lines 0 none).1 g] = _
    rw [hlen]
    rw [show parseLines lines = parseGo lines 0 none from rfl, parseGo_decompose lines]
  · intro lines l ms m hg hne hsplit
    have hb : (pyStrip l).isEmpty = false := by
      cases hb2 : (pyStrip l).isEmpty
      · rfl
      · exact absurd ((String.isEmpty_iff _).mp hb2) hne
    cases h2 : (parseAdvance lines 0 none).2 with
    | none =>
      exfalso
      have hnil : parseLines lines = [] := by
        unfold parseLines
        rw [parseGo_decompose lines, parseEmit_none_of_advance_none lines 0 h2, h2]
        rfl
      rw [hnil] at hsplit
      simp at hsplit
    | some m2 =>
      have hdec : parseLines lines = parseEmit lines 0 none ++ [m2] := by
        unfold parseLines
        rw [parseGo_decompose lines, h2]
        rfl
      have hlen2 : ms.length = (parseEmit lines 0 none).length := by
        have := congrArg List.length (hsplit.symm.trans hdec)
        simp at this
        omega
      obtain ⟨hms, hm⟩ := List.append_inj (hsplit.symm.trans hdec) hlen2
      have hm2 : m = m2 := by
        simpa using hm
      have h1 : parseEmit [l] (parseAdvance lines 0 none).1 (some m2) = [] := by
        simp [parseEmit, hg, hb]
      have h3 : parseAdvance [l] (parseAdvance lines 0 none).1 (some m2) =
          ((parseAdvance lines 0 none).1, some (appendBody m2 (pyStrip l))) := by
        simp [parseAdvance, hg, hb]
      show parseGo (lines ++ [l]) 0 none = _
      rw [parseGo_decompose (lines ++ [l]), (parse_append lines [l] 0 none).2,
        (parse_append lines [l] 0 none).1, h2, h1, h3]
      rw [hms, hm2]
      simp
  · intro lines l hg hblank
    have hb : (pyStrip l).isEmpty = true := by
      rw [hblank]
      rfl
    have h1 : ∀ c, parseEmit [l] (parseAdvance lines 0 none).1 c = [] := by
      intro c
      cases c <;> simp [parseEmit, hg, hb]
    have h3 : ∀ c, parseAdvance [l] (parseAdvance lines 0 none).1 c =
        ((parseAdvance lines 0 none).1, c) := by
      intro c
      cases c <;> simp [parseAdvance, hg, hb]
    show parseGo (lines ++ [l]) 0 none = parseGo lines 0 none
    rw [parseGo_decompose (lines ++ [l]), (parse_append lines [l] 0 none).2,
      (parse_append lines [l] 0 none).1, h1, h3, parseGo_decompose lines]
    simp
  · intro l lines hg
    show parseGo (l :: lines) 0 none = parseGo lines 0 none
    simp [parseGo, hg]

/-- Witness for C6: the header-append, continuation-append, and orphan-drop
clauses at a concrete two-line transcript. -/
theorem claim_C6_transcript_parsing_witness :
    parseLines ["10:00 From Alice to Everyone: hi",
      "10:05 From Bob to Everyone: yo"] =
      [{ id := 0, sender := "Alice", message := "hi", timestamp := some "10:00" },
       { id := 1, sender := "Bob", message := "yo", timestamp := some "10:05" }] ∧
    parseLines ["10:00 From Alice to Everyone: hi", "wrapped"] =
      [{ id := 0, sender := "Alice", message := "hi wrapped",
         timestamp := some "10:00" }] ∧
    parseLines ["orphan", "10:00 From Alice to Everyone: hi"] =
      parseLines ["10:00 From Alice to Everyone: hi"] := by
  refine ⟨?_, ?_, ?_⟩
  · have h := claim_C6_transcript_parsing.2.2.1 ["10:00 From Alice to Everyone: hi"]
      "10:05 From Bob to Everyone: yo" ("10:05", "Bob", "yo") (by decide)
    show parseLines (["10:00 From Alice to Everyone: hi"] ++
      ["10:05 From Bob to Everyone: yo"]) = _
    rw [h]
    decide
  · have h := claim_C6_transcript_parsing.2.2.2.1 ["10:00 From Alice to Everyone: hi"] "wrapped"
      [] { id := 0, sender := "Alice", message := "hi", timestamp := some "10:00" }
      (by decide) (by decide) (by decide)
    show parseLines (["10:00 From Alice to Everyone: hi"] ++ ["wrapped"]) = _
    rw [h]
    decide
  · exact claim_C6_transcript_parsing.2.2.2.2.2.1 "orphan" ["10:00 From Alice to Everyone: hi"]
      (by decide)

/-! ## C10 — Sender cleaning never collapses to (near) nothing -/

/-- C10 (confirmed): when the cleaning pipeline (phone/role/non-ASCII/state
removal plus whitespace collapse) leaves fewer than 2 characters, the
whitespace-stripped original raw name is returned instead; otherwise the
cleaned name is returned. Hence the result is shorter than 2 characters only
when the stripped raw header sender itself is. -/
theorem claim_C10_clean_sender :
    (∀ raw : String, (clean_core raw).length < 2 →
      clean_sender_name raw = pyStrip raw) ∧
    (∀ raw : String, 2 ≤ (clean_core raw).length →
      clean_sender_name raw = String.mk (clean_core raw)) ∧
    (∀ raw : String, (clean_sender_name raw).length < 2 →
      clean_sender_name raw = pyStrip raw) := by
  refine ⟨?_, ?_, ?_⟩
  · intro raw h
    simp [clean_sender_name, h]
  · intro raw h
    simp [clean_sender_name, Nat.not_lt.mpr h]
  · intro raw h
    by_cases hc : (clean_core raw).length < 2
    · simp [clean_sender_name, hc]
    · exfalso
      have he : clean_sender_name raw = String.mk (clean_core raw) := by
        simp [clean_sender_name, hc]
      rw [he] at h
      exact hc (by simpa using h)

/-- Witness for C10: "TC 1234567890" cleans to the empty string, so the
stripped original is returned. -/
theorem claim_C10_clean_sender_witness :
    clean_sender_name "TC 1234567890" = "TC 1234567890" := by
  have h := claim_C10_clean_sender.1 "TC 1234567890" (by decide)
  rw [h]
  decide

end MeetingVault
